import Mathlib

/-!
Shallow embedding of the montuno generator (`voicings.py`, `midi_utils.py`,
`modos.py`) and verification of the frozen claims about it.

Conventions of the embedding:
* Python ints are `Int` (or `Nat` for counters and indices).
* Note times (seconds) are modelled as exact rationals `ℚ`; the source uses
  floats, and all operations the claims exercise (comparison, min, subtraction,
  multiplication, halving/rounding) are exact on the values involved.
* Fallible Python code (raised exceptions) is modelled with `Except String`.
* Python `while` loops become well-founded recursive functions.
* String manipulation is performed structurally on `String.data` so that it
  evaluates inside the kernel.
-/

namespace Montuno

/-! ### voicings.py : constants and tables -/

def RANGO_MIN : Int := 53
def RANGO_MAX : Int := 67

/-- `INTERVALOS_TRADICIONALES` from `voicings.py` (suffix → interval list). -/
def INTERVALOS_TRADICIONALES : List (String × List Int) :=
  [("6", [0, 4, 7, 9]),
   ("7", [0, 4, 7, 10]),
   ("∆", [0, 4, 7, 11]),
   ("m6", [0, 3, 7, 9]),
   ("m7", [0, 3, 7, 10]),
   ("m∆", [0, 3, 7, 11]),
   ("+7", [0, 4, 8, 10]),
   ("∆sus4", [0, 5, 7, 11]),
   ("∆sus2", [0, 2, 7, 11]),
   ("7sus4", [0, 5, 7, 10]),
   ("7sus2", [0, 2, 7, 10]),
   ("º7", [0, 3, 6, 9]),
   ("º∆", [0, 3, 6, 11]),
   ("ø", [0, 3, 6, 10]),
   ("7(b5)", [0, 4, 6, 10]),
   ("7(b9)", [0, 4, 7, 10, 13]),
   ("+7(b9)", [0, 4, 8, 10, 13]),
   ("7(b5)b9", [0, 4, 6, 10, 13]),
   ("7sus4(b9)", [0, 5, 7, 10, 13]),
   ("∆(b5)", [0, 4, 6, 11])]

/-- `NOTAS` from `voicings.py` (note name → pitch class). -/
def NOTAS : List (String × Int) :=
  [("C", 0), ("B#", 0),
   ("C#", 1), ("Db", 1),
   ("D", 2),
   ("D#", 3), ("Eb", 3),
   ("E", 4), ("Fb", 4),
   ("F", 5), ("E#", 5),
   ("F#", 6), ("Gb", 6),
   ("G", 7),
   ("G#", 8), ("Ab", 8),
   ("A", 9),
   ("A#", 10), ("Bb", 10),
   ("B", 11), ("Cb", 11)]

/-- The suffix alternatives of the regex in `parsear_nombre_acorde`
(`voicings.py` line 66).  The regex is anchored at both ends, so it accepts a
suffix exactly when the remainder after the root equals one of these strings
(the alternation order is irrelevant because all alternatives are distinct).
Note the bare `m` alternative, which has no entry in
`INTERVALOS_TRADICIONALES`. -/
def SUFIJOS : List String :=
  ["m6", "m7", "m∆", "m", "6", "7", "∆sus4", "∆sus2", "∆", "+7", "º7", "º∆",
   "ø", "7sus4", "7sus2", "7(b5)", "7(b9)", "+7(b9)", "7(b5)b9", "7sus4(b9)",
   "∆(b5)"]

/-- Split a chord name into root (`[A-G][b#]?`) and remainder.  The regex's
root group is greedy; no suffix alternative starts with `b` or `#`, so when
the second character is an accidental the root is always the two-character
option. -/
def dividirRaiz (nombre : String) : Option (String × String) :=
  match nombre.data with
  | [] => none
  | c :: rest =>
    if 'A' ≤ c ∧ c ≤ 'G' then
      match rest with
      | a :: rest2 =>
        if a = 'b' ∨ a = '#' then some (String.mk [c, a], String.mk rest2)
        else some (String.mk [c], String.mk rest)
      | [] => some (String.mk [c], "")
    else none

/-- `parsear_nombre_acorde` (`voicings.py` lines 61-72). -/
def parsear_nombre_acorde (nombre : String) : Except String (Int × String) :=
  match dividirRaiz nombre with
  | some (root, suf) =>
    if SUFIJOS.contains suf then
      match NOTAS.lookup root with
      | some pc => .ok (pc, suf)
      | none => .error ("KeyError: " ++ root)
    else .error ("Acorde no reconocido: " ++ nombre)
  | none => .error ("Acorde no reconocido: " ++ nombre)

/-- First `while` loop of `_ajustar_octava`: raise by octaves until the pitch
reaches `RANGO_MIN`. -/
def subirAlMinimo (pitch : Int) : Int :=
  if pitch < RANGO_MIN then subirAlMinimo (pitch + 12) else pitch
termination_by (RANGO_MIN - pitch).toNat
decreasing_by simp only [RANGO_MIN] at *; omega

/-- Second `while` loop of `_ajustar_octava`: lower by octaves until the pitch
is at most `RANGO_MAX`. -/
def bajarAlMaximo (pitch : Int) : Int :=
  if pitch > RANGO_MAX then bajarAlMaximo (pitch - 12) else pitch
termination_by (pitch - RANGO_MAX).toNat
decreasing_by simp only [RANGO_MAX] at *; omega

/-- `_ajustar_octava` (`voicings.py` lines 75-82). -/
def ajustar_octava (pitch : Int) : Int :=
  bajarAlMaximo (subirAlMinimo pitch)

/-- The inner helper `ajustar` of `generar_voicings_enlazados_tradicional`
(`voicings.py` lines 101-106): place pitch-class `pc` near `target`. -/
def ajustar (pc target : Int) : Int :=
  let pitch := target + (pc - target) % 12
  if |pitch - target| > |pitch - 12 - target| then pitch - 12 else pitch

/-- The `while pitch <= bajo: pitch += 12` loops of
`generar_voicings_enlazados_tradicional` (`voicings.py` lines 133-137). -/
def subirSobreBajo (bajo pitch : Int) : Int :=
  if pitch ≤ bajo then subirSobreBajo bajo (pitch + 12) else pitch
termination_by (bajo + 1 - pitch).toNat
decreasing_by omega

/-- Default reference positions for the four voices (`referencia`). -/
def referencia : List Int := [55, 57, 60, 64]

/-- Body of the `for nombre in progresion` loop of
`generar_voicings_enlazados_tradicional` (`voicings.py` lines 108-147):
given the previous bass, produce the chord's voicing and the new bass. -/
def generar_voicing (bajo_anterior : Int) (nombre : String) :
    Except String (List Int × Int) := do
  let (root, suf) ← parsear_nombre_acorde nombre
  match INTERVALOS_TRADICIONALES.lookup suf with
  | none => .error ("KeyError: " ++ suf)
  | some ints =>
    let pcs := ints.map (fun i => (root + i) % 12)
    -- every interval table entry has at least four elements, so the Python
    -- accesses pcs[2], pcs[3] never fail; `getD` matches them on such lists
    let pc_y := pcs.getD 2 0
    let pc_z := pcs.getD 3 0
    let bajo_y := ajustar pc_y bajo_anterior
    let bajo_z := ajustar pc_z bajo_anterior
    let eligeY := |bajo_y - bajo_anterior| ≤ |bajo_z - bajo_anterior|
    let bajo := if eligeY then ajustar_octava bajo_y else ajustar_octava bajo_z
    let restantes_pcs :=
      if eligeY then [pcs.getD 0 0, pcs.getD 1 0, pc_z]
      else [pcs.getD 0 0, pcs.getD 1 0, pc_y]
    let notas_restantes :=
      (restantes_pcs.zip (referencia.drop 1)).map (fun pr =>
        subirSobreBajo bajo (ajustar_octava (subirSobreBajo bajo (ajustar pr.1 pr.2))))
    let voicing := List.insertionSort (· ≤ ·) (bajo :: notas_restantes)
    .ok (voicing, bajo)

/-- The loop of `generar_voicings_enlazados_tradicional`, threading the
previous bass. -/
def generarVoicingsDesde : Int → List String → Except String (List (List Int))
  | _, [] => .ok []
  | bajoAnt, nombre :: resto => do
    let (v, bajo) ← generar_voicing bajoAnt nombre
    let vs ← generarVoicingsDesde bajo resto
    .ok (v :: vs)

/-- `generar_voicings_enlazados_tradicional` (`voicings.py` lines 85-149).
The initial previous bass is `referencia[0] = 55`. -/
def generar_voicings_enlazados_tradicional (progresion : List String) :
    Except String (List (List Int)) :=
  generarVoicingsDesde 55 progresion

/-! ### midi_utils.py : rhythmic grouping (scheduler) -/

def PRIMER_BLOQUE : List Nat := [3, 4, 4, 3]
def PATRON_REPETIDO : List Nat := [5, 4, 4, 3]

/-- `_siguiente_grupo` (`midi_utils.py` lines 844-853). -/
def siguiente_grupo (indice : Nat) : Nat :=
  if indice < PRIMER_BLOQUE.length then PRIMER_BLOQUE.getD indice 0
  else PATRON_REPETIDO.getD ((indice - PRIMER_BLOQUE.length) % PATRON_REPETIDO.length) 0

/-- The `arm_map` dictionary inside `procesar_token`.  The Python lookup
`arm_map[codigo]` is only reached with one of the four codes. -/
def armMap (codigo : String) : String :=
  if codigo = "8" then "Octavas"
  else if codigo = "15" then "Doble octava"
  else if codigo = "10" then "Décimas"
  else if codigo = "13" then "Treceavas"
  else ""

/-- The regex `^\((8|10|13|15)\)(.*)$` of `procesar_token`
(`midi_utils.py` line 886): returns the matched code and the remainder. -/
def marcador (token : String) : Option (String × String) :=
  if ("(8)".data).isPrefixOf token.data then some ("8", String.mk (token.data.drop 3))
  else if ("(10)".data).isPrefixOf token.data then some ("10", String.mk (token.data.drop 4))
  else if ("(13)".data).isPrefixOf token.data then some ("13", String.mk (token.data.drop 4))
  else if ("(15)".data).isPrefixOf token.data then some ("15", String.mk (token.data.drop 4))
  else none

/-- `procesar_token` (`midi_utils.py` lines 880-900).  The mutable
`arm_actual` becomes explicit state: the result is the new `arm_actual`
together with the optional `(chord, harmonization)` pair. -/
def procesar_token (armActual token : String) : String × Option (String × String) :=
  match marcador token with
  | some (codigo, resto) =>
    let nuevo := armMap codigo
    (nuevo, if resto ≠ "" then some (resto, nuevo) else none)
  | none => (armActual, some (token, armActual))

/-- The `for tok in tokens` loop of `procesar_progresion_en_grupos`
(`midi_utils.py` lines 904-908): fold `procesar_token` over the tokens,
collecting the produced `(chord, harmonization)` pairs. -/
def procesarTokens (armActual : String) : List String → String × List (String × String)
  | [] => (armActual, [])
  | t :: ts =>
    let (arm1, res) := procesar_token armActual t
    let (arm2, acc) := procesarTokens arm1 ts
    (arm2, res.toList ++ acc)

/-- Python's `str.isspace`-based `seg.split()` : split on whitespace runs,
dropping empty pieces. -/
def tokensDe (seg : String) : List String :=
  ((seg.data.splitOnP Char.isWhitespace).map String.mk).filter (· ≠ "")

/-- Python `str.strip()`. -/
def recortarEspacios (s : String) : String :=
  String.mk (((s.data.dropWhile Char.isWhitespace).reverse.dropWhile
    Char.isWhitespace).reverse)

/-- Python `str.capitalize()`: first character uppercased, the rest
lowercased (ASCII case mapping suffices for the strings involved). -/
def capitalizar (s : String) : String :=
  match s.data with
  | [] => ""
  | c :: rest => String.mk (c.toUpper :: rest.map Char.toLower)

/-- One chord assignment: `(acorde, indices, armonizacion)`. -/
abbrev Asig := String × List Nat × String

/-- The `for seg in segmentos` loop of `procesar_progresion_en_grupos`
(`midi_utils.py` lines 902-938), threading the pattern index, the current
eighth-note position and the persistent harmonization. -/
def procesarSegmentos : List String → Nat → Nat → String → Except String (List Asig)
  | [], _, _, _ => .ok []
  | seg :: resto, indicePatron, posicion, armActual =>
    let par := procesarTokens armActual (tokensDe seg)
    match par.2 with
    | [] => procesarSegmentos resto indicePatron posicion par.1
    | [(nombre, arm)] =>
      let dur := siguiente_grupo indicePatron + siguiente_grupo (indicePatron + 1)
      (procesarSegmentos resto (indicePatron + 2) (posicion + dur) par.1).map
        (fun r => (nombre, List.range' posicion dur, arm) :: r)
    | [(n1, a1), (n2, a2)] =>
      let g1 := siguiente_grupo indicePatron
      let g2 := siguiente_grupo (indicePatron + 1)
      (procesarSegmentos resto (indicePatron + 2) (posicion + g1 + g2) par.1).map
        (fun r => (n1, List.range' posicion g1, a1) ::
                  (n2, List.range' (posicion + g1) g2, a2) :: r)
    | _ => .error ("Cada segmento debe contener uno o dos acordes: " ++ seg)

/-- `procesar_progresion_en_grupos` (`midi_utils.py` lines 857-943). -/
def procesar_progresion_en_grupos (texto : String)
    (armonizacion_default : Option String) : Except String (List Asig × Nat) :=
  let segmentos :=
    ((texto.data.splitOnP (· = '|')).map (fun l => recortarEspacios (String.mk l))).filter
      (· ≠ "")
  let arm0 := capitalizar (armonizacion_default.getD "")
  (procesarSegmentos segmentos 0 0 arm0).map (fun r => (r, segmentos.length))

/-! ### midi_utils.py : notes and the render engine -/

/-- A note (`pretty_midi.Note` / a `posiciones` dict): pitch, start, end,
velocity.  Times are exact rationals. -/
structure Nota where
  pitch : Int
  start : ℚ
  stop : ℚ
  velocity : Nat
deriving DecidableEq, Repr

/-- `NOTAS_BASE` (`midi_utils.py` line 9). -/
def NOTAS_BASE : List Int := [55, 57, 60, 64]

/-- Python `int(round(x))` (round half to even) on an exact rational. -/
def redondear (q : ℚ) : Int :=
  let n := ⌊q⌋
  let r := q - n
  if r < 1/2 then n
  else if 1/2 < r then n + 1
  else if n % 2 = 0 then n else n + 1

/-- The sort key `(pitch, start)` used in `_cortar_notas_superpuestas`. -/
def porPitchStart (a b : Nota) : Prop :=
  a.pitch < b.pitch ∨ (a.pitch = b.pitch ∧ a.start ≤ b.start)

instance : DecidableRel porPitchStart := fun a b => by
  unfold porPitchStart; infer_instance

instance : IsTotal Nota porPitchStart :=
  ⟨fun a b => by unfold porPitchStart; rcases lt_trichotomy a.pitch b.pitch with h | h | h
                 · exact .inl (.inl h)
                 · rcases le_total a.start b.start with h' | h'
                   · exact .inl (.inr ⟨h, h'⟩)
                   · exact .inr (.inr ⟨h.symm, h'⟩)
                 · exact .inr (.inl h)⟩

instance : IsTrans Nota porPitchStart :=
  ⟨fun a b c hab hbc => by
    unfold porPitchStart at *
    rcases hab with h | ⟨he, hs⟩ <;> rcases hbc with h' | ⟨he', hs'⟩
    · exact .inl (h.trans h')
    · exact .inl (he' ▸ h)
    · exact .inl (he ▸ h')
    · exact .inr ⟨he.trans he', hs.trans hs'⟩⟩

/-- The final sort key `(start, pitch)` used in `_cortar_notas_superpuestas`
and `construir_posiciones_secuenciales`. -/
def porStartPitch (a b : Nota) : Prop :=
  a.start < b.start ∨ (a.start = b.start ∧ a.pitch ≤ b.pitch)

instance : DecidableRel porStartPitch := fun a b => by
  unfold porStartPitch; infer_instance

instance : IsTotal Nota porStartPitch :=
  ⟨fun a b => by unfold porStartPitch; rcases lt_trichotomy a.start b.start with h | h | h
                 · exact .inl (.inl h)
                 · rcases le_total a.pitch b.pitch with h' | h'
                   · exact .inl (.inr ⟨h, h'⟩)
                   · exact .inr (.inr ⟨h.symm, h'⟩)
                 · exact .inr (.inl h)⟩

instance : IsTrans Nota porStartPitch :=
  ⟨fun a b c hab hbc => by
    unfold porStartPitch at *
    rcases hab with h | ⟨he, hs⟩ <;> rcases hbc with h' | ⟨he', hs'⟩
    · exact .inl (h.trans h')
    · exact .inl (he' ▸ h)
    · exact .inl (he ▸ h')
    · exact .inr ⟨he.trans he', hs.trans hs'⟩⟩

/-- `lista[-1].end = n.start` (when overlapping) followed by
`lista.append(n)`: append `n` to a pitch group, truncating the previous last
element if it extends past `n.start` (`midi_utils.py` lines 746-748). -/
def empujarNota : List Nota → Nota → List Nota
  | [], n => [n]
  | [m], n => if m.stop > n.start then [{ m with stop := n.start }, n] else [m, n]
  | m :: rest, n => m :: empujarNota rest n

/-- One step of the grouping loop of `_cortar_notas_superpuestas`:
`agrupadas.setdefault(n.pitch, [])` (insertion at the end of the dict on a
fresh pitch) followed by `empujarNota`. -/
def agregarAGrupo : List (Int × List Nota) → Int → Nota → List (Int × List Nota)
  | [], p, n => [(p, [n])]
  | (q, l) :: rest, p, n =>
    if q = p then (q, empujarNota l n) :: rest
    else (q, l) :: agregarAGrupo rest p n

/-- `_cortar_notas_superpuestas` (`midi_utils.py` lines 734-752). -/
def cortar_notas_superpuestas (notas : List Nota) : List Nota :=
  let ordenadas := List.insertionSort porPitchStart notas
  let agrupadas := ordenadas.foldl (fun g n => agregarAGrupo g n.pitch n) []
  let resultado := (agrupadas.map (·.2)).flatten
  List.insertionSort porStartPitch resultado

/-- `_recortar_notas_a_limite` (`midi_utils.py` lines 714-731). -/
def recortar_notas_a_limite (notas : List Nota) (limite : ℚ) : List Nota :=
  (notas.filter (fun n => ¬ n.start ≥ limite)).map
    (fun n => if n.stop > limite then { n with stop := limite } else n)

/-! #### generar_notas_mixtas -/

/-- The per-chord `info` dict built at the top of `generar_notas_mixtas`
(`midi_utils.py` lines 568-582). -/
structure InfoAcorde where
  root_pc : Int
  intervals : List Int
  esSexta : Bool
  esDism7 : Bool
  suf : String
deriving DecidableEq, Repr

/-- Python `"7" not in suf` / `suf.endswith("6")`. -/
def infoAcorde (nombre : String) : Except String InfoAcorde := do
  let (root_pc, suf) ← parsear_nombre_acorde nombre
  match INTERVALOS_TRADICIONALES.lookup suf with
  | none => .error ("KeyError: " ++ suf)
  | some ints =>
    .ok { root_pc := root_pc
          intervals := ints
          esSexta := (suf.data.reverse.take 1 = ['6']) && !(suf.data.contains '7')
          esDism7 := suf = "º7"
          suf := suf }

/-- The `mapa` dict (slot index → assignment index): built by enumeration,
later assignments overwrite earlier ones on a shared slot
(`midi_utils.py` lines 561-564). -/
def mapaAsig (asigs : List Asig) (c : Int) : Option Nat :=
  asigs.enum.foldl
    (fun acc par => if par.2.2.1.any (fun ix => (ix : Int) = c) then some par.1 else acc)
    none

/-- Python `str.lower()` (ASCII case mapping suffices here). -/
def minusculas (s : String) : String :=
  String.mk (s.data.map Char.toLower)

/-- First `while` loop of `_ajustar_salto` (`midi_utils.py` lines 541-542). -/
def bajarSalto (prev pitch : Int) : Int :=
  if pitch - prev ≥ 12 then bajarSalto prev (pitch - 12) else pitch
termination_by (pitch - prev).toNat
decreasing_by omega

/-- Second `while` loop of `_ajustar_salto` (`midi_utils.py` lines 543-544). -/
def subirSalto (prev pitch : Int) : Int :=
  if prev - pitch ≥ 12 then subirSalto prev (pitch + 12) else pitch
termination_by (prev - pitch).toNat
decreasing_by omega

/-- `_ajustar_salto` (`midi_utils.py` lines 535-545). -/
def ajustar_salto (prev_pitch : Option Int) (pitch : Int) : Int :=
  match prev_pitch with
  | none => pitch
  | some prev => subirSalto prev (bajarSalto prev pitch)

/-- Look up an association list with a default (Python `dict.get(k, d)`). -/
def buscarD (l : List (Nat × α)) (k : Nat) (d : α) : α :=
  match l.lookup k with
  | some v => v
  | none => d

/-- Python `dict[k] = v` (overwrite or insert). -/
def insertarAsoc (l : List (Nat × α)) (k : Nat) (v : α) : List (Nat × α) :=
  match l with
  | [] => [(k, v)]
  | (q, w) :: rest => if q = k then (k, v) :: rest else (q, w) :: insertarAsoc rest k v

/-- Mutable state of the `for pos in posiciones` loop of
`generar_notas_mixtas`: `contadores`, `offsets`, `bajo_anterior`,
`arm_anterior`. -/
structure EstadoMixto where
  contadores : List (Nat × Nat)
  offsets : List (Nat × Int)
  bajoAnterior : Option Int
  armAnterior : Option String
deriving DecidableEq, Repr

/-- Python `lst[i]`, raising `IndexError` when out of range. -/
def elemento (l : List α) (i : Nat) : Except String α :=
  match l.get? i with
  | some x => .ok x
  | none => .error "IndexError"

/-- The chord-tone classification shared by the décimas/treceavas branches
(`midi_utils.py` lines 612-640): from the base pitch compute the added pitch
`agregada = base + diff`.  The interval table accesses `ints[0..3]` (and
`ints[4]` for `7(b9)`) never fail on table entries; `getD` matches them. -/
def agregadaDecimas (datos : InfoAcorde) (base : Int) : Int :=
  let root_pc := datos.root_pc
  let ints := datos.intervals
  let pc := base % 12
  let par : Int × Bool :=  -- (target_int - base_int, func ∈ {"6","7"})
    if pc = (root_pc + ints.getD 0 0) % 12 then
      (ints.getD 1 0 - ints.getD 0 0, false)
    else if pc = (root_pc + ints.getD 1 0) % 12 then
      (ints.getD 2 0 - ints.getD 1 0, false)
    else if pc = (root_pc + ints.getD 2 0) % 12 then
      ((if datos.esSexta then 11 else ints.getD 3 0) - ints.getD 2 0, false)
    else if pc = (root_pc + ints.getD 3 0) % 12 then
      if datos.esSexta || datos.esDism7 then
        (ints.getD 0 0 - ints.getD 3 0, true)
      else
        ((if datos.suf = "7(b9)" then ints.getD 4 0 else 2) - ints.getD 3 0, true)
    else (0, false)
  let diff := par.1 + (if par.2 then 24 else 12)
  base + diff

/-- The notes emitted for one reference position before the octave offset is
applied (`midi_utils.py` lines 603-658): the body of the per-event branch on
the harmonisation kind. -/
def notasCrudas (arm : String) (datos : InfoAcorde) (voicing : List Int)
    (paso : Nat) (posPitch : Int) : Except String (List Int) :=
  if arm = "décimas" ∨ arm = "treceavas" then do
    let base ← elemento voicing (paso % 4)
    let agregada := agregadaDecimas datos base
    if arm = "décimas" then .ok [base, agregada]
    else .ok [base + 12, agregada - 24]
  else do
    -- orden = NOTAS_BASE.index(pos["pitch"]) ; raises ValueError when absent
    match NOTAS_BASE.findIdx? (fun p => p = posPitch) with
    | none => .error "ValueError: pitch not in NOTAS_BASE"
    | some orden => do
      let base_pitch ← elemento voicing orden
      if arm = "octavas" then .ok [base_pitch, base_pitch + 12]
      else if arm = "doble octava" then
        .ok (if base_pitch > 0 then [base_pitch - 12, base_pitch + 12] else [])
      else .ok [base_pitch]

/-- One iteration of the `for pos in posiciones` loop of
`generar_notas_mixtas` (`midi_utils.py` lines 590-691): returns the new state
and the notes emitted for this reference position. -/
def pasoMixto (voicings : List (List Int)) (asigs : List Asig)
    (infos : List InfoAcorde) (grid : ℚ) (s : EstadoMixto) (pos : Nota) :
    Except String (EstadoMixto × List Nota) :=
  let corchea := redondear (pos.start / grid)
  match mapaAsig asigs corchea with
  | none => .ok (s, [])
  | some idx => do
    -- arm = armonias.get(idx, "") where armonias[i] = (arm_i or "").lower();
    -- mapaAsig only returns indices below asigs.length, so getD is exact
    let arm := minusculas ((asigs.getD idx ("", [], "")).2.2)
    let paso := buscarD s.contadores idx 0
    let contadores' := insertarAsoc s.contadores idx (paso + 1)
    let voicingSinOrden ← elemento voicings idx
    let voicing := List.insertionSort (· ≤ ·) voicingSinOrden
    let datos := infos.getD idx ⟨0, [], false, false, ""⟩
    let notas ← notasCrudas arm datos voicing paso pos.pitch
    let offset0 := buscarD s.offsets idx 0
    let estadoYOffset ←
      if paso = 0 then
        match notas.min? with
        | none => .error "ValueError: min of empty sequence"
        | some bajo =>
          -- Python `arm != arm_anterior` where `arm_anterior` may be None
          if s.armAnterior ≠ some arm then
            let ajustado := ajustar_salto s.bajoAnterior bajo
            let offset := ajustado - bajo
            .ok (EstadoMixto.mk contadores' (insertarAsoc s.offsets idx offset)
                  (some ajustado) (some arm), offset)
          else
            .ok (EstadoMixto.mk contadores' (insertarAsoc s.offsets idx offset0)
                  (some (bajo + offset0)) (some arm), offset0)
      else
        .ok (EstadoMixto.mk contadores' s.offsets s.bajoAnterior s.armAnterior, offset0)
    .ok (estadoYOffset.1,
         notas.map (fun p =>
           Nota.mk (p + estadoYOffset.2) pos.start pos.stop pos.velocity))

/-- The full loop of `generar_notas_mixtas`, accumulating emitted notes. -/
def mixtasDesde (voicings : List (List Int)) (asigs : List Asig)
    (infos : List InfoAcorde) (grid : ℚ) :
    EstadoMixto → List Nota → Except String (List Nota)
  | _, [] => .ok []
  | s, p :: ps => do
    let (s', ns) ← pasoMixto voicings asigs infos grid s p
    let rest ← mixtasDesde voicings asigs infos grid s' ps
    .ok (ns ++ rest)

/-- `generar_notas_mixtas` (`midi_utils.py` lines 548-692). -/
def generar_notas_mixtas (posiciones : List Nota) (voicings : List (List Int))
    (asigs : List Asig) (grid : ℚ) : Except String (List Nota) := do
  let infos ← asigs.mapM (fun a => infoAcorde a.1)
  mixtasDesde voicings asigs infos grid ⟨[], [], none, none⟩ posiciones

/-! #### exportar_montuno note pipeline and the top-level mode -/

/-- The zero-effect marker note appended by `exportar_montuno`
(`midi_utils.py` lines 802-810). -/
def notaMarcador (limite grid : ℚ) : Nota :=
  Nota.mk 0 (max 0 (limite - grid)) limite 1

/-- The note post-processing of `exportar_montuno`
(`midi_utils.py` lines 780-810): overlap cutting, truncation to
`num_compases * 8` eighth notes, and the duration-pinning marker.  Reading
and writing the MIDI files themselves is outside the embedding; this function
receives the rendered notes (`nuevas_notas`) and produces exactly the note
list written to the output file. -/
def notas_exportadas (nuevas_notas : List Nota) (num_compases : Nat)
    (grid : ℚ) : List Nota :=
  let total_dest_cor := num_compases * 8
  let limite : ℚ := (total_dest_cor : ℚ) * grid
  let n1 := cortar_notas_superpuestas nuevas_notas
  let n2 := recortar_notas_a_limite n1 limite
  if limite > 0 then n2 ++ [notaMarcador limite grid] else n2

/-- `montuno_tradicional` (`modos.py` lines 17-40), up to (and excluding) the
external MIDI input/output of `exportar_montuno`: schedule the progression,
then generate the voicings.  `exportar_montuno` — the only step that writes
the output file — runs strictly after voicing generation, so an error from
either stage yields `.error` and no output is produced; a successful run
returns the data handed to `exportar_montuno`. -/
def montuno_tradicional (progresion_texto : String)
    (armonizacion : Option String) :
    Except String (List Asig × List (List Int) × Nat) := do
  let (asignaciones, compases) ←
    procesar_progresion_en_grupos progresion_texto armonizacion
  let voicings ←
    generar_voicings_enlazados_tradicional (asignaciones.map (·.1))
  .ok (asignaciones, voicings, compases)

/-! ### Predicates used to state the overlap / truncation claims -/

/-- Specification of one generated traditional voicing for the chord symbol
`nombre`: the chord parses, its suffix has an interval entry, the voicing is
a 4-element ascending list, its lowest pitch's class is the chord's fifth
(`root + ints[2]`) or seventh-equivalent (`root + ints[3]`) and is never the
root's or the third's class, the three remaining tones lie strictly above
the bass, and every tone's pitch class comes from the first four interval
entries. -/
def VoicingAcorde (nombre : String) (v : List Int) : Prop :=
  ∃ root suf ints bajo resto,
    parsear_nombre_acorde nombre = .ok (root, suf) ∧
    INTERVALOS_TRADICIONALES.lookup suf = some ints ∧
    v = bajo :: resto ∧
    v.length = 4 ∧
    List.Sorted (· ≤ ·) v ∧
    (∀ x ∈ resto, bajo < x) ∧
    (bajo % 12 = (root + ints.getD 2 0) % 12 ∨ bajo % 12 = (root + ints.getD 3 0) % 12) ∧
    bajo % 12 ≠ (root + ints.getD 0 0) % 12 ∧
    bajo % 12 ≠ (root + ints.getD 1 0) % 12 ∧
    (∀ x ∈ v, x % 12 = (root + ints.getD 0 0) % 12 ∨ x % 12 = (root + ints.getD 1 0) % 12 ∨
      x % 12 = (root + ints.getD 2 0) % 12 ∨ x % 12 = (root + ints.getD 3 0) % 12)

/-- The identity of a note apart from its end time: pitch, start, velocity.
Overlap resolution may only change `stop`. -/
def clave (n : Nota) : Int × ℚ × Nat := (n.pitch, n.start, n.velocity)

/-- Consecutive-in-group relation established by the truncation pass:
the earlier note ends no later than the later one starts (and starts no
later as well). -/
def encadenada (a b : Nota) : Prop :=
  a.stop ≤ b.start ∧ a.start ≤ b.start

instance : IsTrans Nota encadenada :=
  ⟨fun _ b _ hab hbc =>
    ⟨le_trans hab.1 hbc.2, le_trans hab.2 hbc.2⟩⟩

/-- Two notes of equal pitch have non-overlapping half-open intervals
`[start, stop)` : one of them ends no later than the other starts. -/
def sinSolape (a b : Nota) : Prop :=
  a.pitch = b.pitch → a.stop ≤ b.start ∨ b.stop ≤ a.start

theorem sinSolape_symm : Symmetric sinSolape := by
  intro a c h he
  exact (h he.symm).symm

/-- Invariant of the pitch-grouping dictionary built by
`_cortar_notas_superpuestas`: distinct keys, every note filed under its own
pitch, and each group chained (each note ends before the next starts). -/
def BuenosGrupos (g : List (Int × List Nota)) : Prop :=
  (g.map (·.1)).Nodup ∧
    ∀ par ∈ g, (∀ m ∈ par.2, m.pitch = par.1) ∧ List.Chain' encadenada par.2

/-- A note of the overlap-resolution output descends from an input note: same
pitch/start/velocity, its end only ever lowered, and when it was lowered the
new end is the start of another input note of the same pitch. -/
def Procedencia (origen : List Nota) (m : Nota) : Prop :=
  ∃ n0 ∈ origen, clave m = clave n0 ∧ m.stop ≤ n0.stop ∧
    (m.stop = n0.stop ∨ ∃ n2 ∈ origen, n2.pitch = m.pitch ∧ m.stop = n2.start)

/-- Concrete voicings for the progression `"C7 | (8)F7"` (as produced by
`generar_voicings_enlazados_tradicional ["C7", "F7"]`). -/
def voicingsPrueba : List (List Int) := [[55, 58, 60, 64], [63, 65, 69, 72]]

/-- Concrete slot assignments for `"C7 | (8)F7"` (as produced by
`procesar_progresion_en_grupos`): the first chord renders with the default
style, the second with octave doubling. -/
def asigsPrueba : List Asig :=
  [("C7", List.range' 0 7, ""), ("F7", List.range' 7 7, "Octavas")]

/-- Concrete chord info for `["C7", "F7"]` (as produced by `infoAcorde`). -/
def infosPrueba : List InfoAcorde :=
  [⟨0, [0, 4, 7, 10], false, false, "7"⟩, ⟨5, [0, 4, 7, 10], false, false, "7"⟩]

instance : Std.Antisymm (fun (x1 x2 : Int) => x1 ≤ x2) :=
  ⟨@fun a b h1 h2 => le_antisymm h1 h2⟩

instance {ε α : Type} [DecidableEq ε] [DecidableEq α] : DecidableEq (Except ε α) := fun a b => by
  cases a <;> cases b
  case error.error e1 e2 => exact decidable_of_iff (e1 = e2) (by simp)
  case ok.ok a1 a2 => exact decidable_of_iff (a1 = a2) (by simp)
  all_goals exact isFalse (by simp)

/-! ## Theorems -/

/-- Inversion of `Except.map` returning `.ok`. -/
theorem map_eq_ok {ε α β : Type} {f : α → β} {x : Except ε α} {b : β}
    (h : x.map f = .ok b) : ∃ a, x = .ok a ∧ b = f a := by
  cases x with
  | error e => simp [Except.map] at h
  | ok a => refine ⟨a, rfl, ?_⟩; simpa [Except.map] using h.symm

/-! ### C2 : per-segment behaviour of the scheduler -/

/-- **C2.** Splitting on `|`, a segment with exactly one chord token consumes
the next two consecutive pattern values (at the absolute consumption indices
`ip`, `ip+1`) and assigns their sum as one contiguous slot range; a segment
with exactly two chord tokens assigns one pattern value to each chord in
left-to-right order; a segment with more than two chord tokens (after
removing bare harmonization markers) raises the malformed-segment error. -/
theorem C2_segmentos (seg : String) (resto : List String) (ip pos : Nat)
    (arm armN : String) (acordes : List (String × String))
    (h : procesarTokens arm (tokensDe seg) = (armN, acordes)) :
    (∀ n a, acordes = [(n, a)] →
      procesarSegmentos (seg :: resto) ip pos arm =
        (procesarSegmentos resto (ip + 2)
            (pos + (siguiente_grupo ip + siguiente_grupo (ip + 1))) armN).map
          (fun r =>
            (n, List.range' pos (siguiente_grupo ip + siguiente_grupo (ip + 1)), a) :: r))
    ∧ (∀ n1 a1 n2 a2, acordes = [(n1, a1), (n2, a2)] →
      procesarSegmentos (seg :: resto) ip pos arm =
        (procesarSegmentos resto (ip + 2)
            (pos + siguiente_grupo ip + siguiente_grupo (ip + 1)) armN).map
          (fun r => (n1, List.range' pos (siguiente_grupo ip), a1) ::
            (n2, List.range' (pos + siguiente_grupo ip) (siguiente_grupo (ip + 1)), a2) :: r))
    ∧ (2 < acordes.length →
      procesarSegmentos (seg :: resto) ip pos arm =
        .error ("Cada segmento debe contener uno o dos acordes: " ++ seg)) := by
  refine ⟨?_, ?_, ?_⟩
  · intro n a hac
    simp only [procesarSegmentos, h, hac]
  · intro n1 a1 n2 a2 hac
    simp only [procesarSegmentos, h, hac]
  · intro hlen
    match acordes, hlen with
    | p1 :: p2 :: p3 :: rest, _ =>
      simp only [procesarSegmentos, h]

/-- Witness for C2 at the concrete segment `"Dm7 G7"`. -/
theorem C2_segmentos_witness :
    procesarSegmentos ["Dm7 G7"] 0 0 "" =
      .ok [("Dm7", [0, 1, 2], ""), ("G7", [3, 4, 5, 6], "")] := by
  have h := (C2_segmentos "Dm7 G7" [] 0 0 "" "" [("Dm7", ""), ("G7", "")]
    (by decide)).2.1 "Dm7" "" "G7" "" rfl
  rw [h]; decide

/-! ### C3 : the worked example -/

/-- Concrete evaluation of the scheduler on the spec's worked example. -/
theorem eval_progresion_ejemplo :
    procesar_progresion_en_grupos "Cmaj7 | Dm7 G7 | Cmaj7" none =
      .ok ([("Cmaj7", [0, 1, 2, 3, 4, 5, 6], ""),
            ("Dm7", [7, 8, 9, 10], ""),
            ("G7", [11, 12, 13], ""),
            ("Cmaj7", [14, 15, 16, 17, 18, 19, 20, 21, 22], "")], 3) := by
  decide

/-- **C3.** With the default lead-in `[3,4,4,3]` and repeat `[5,4,4,3]`, the
text `"Cmaj7 | Dm7 G7 | Cmaj7"` schedules to bar count 3 with slot ranges
0–6, 7–10, 11–13 and 14–22 in order.  The scheduler never parses the chord
names (`"Cmaj7"` is not even a recognizable chord symbol, yet scheduling
succeeds). -/
theorem C3_ejemplo :
    procesar_progresion_en_grupos "Cmaj7 | Dm7 G7 | Cmaj7" none =
      .ok ([("Cmaj7", [0, 1, 2, 3, 4, 5, 6], ""),
            ("Dm7", [7, 8, 9, 10], ""),
            ("G7", [11, 12, 13], ""),
            ("Cmaj7", [14, 15, 16, 17, 18, 19, 20, 21, 22], "")], 3) :=
  eval_progresion_ejemplo

/-! ### C4 : slot ranges are contiguous, disjoint and exhaustive -/

/-- `List.range'` concatenation (proved locally to fix the exact form). -/
theorem range'_concat (s a b : Nat) :
    List.range' s a ++ List.range' (s + a) b = List.range' s (a + b) := by
  induction a generalizing s with
  | zero => simp
  | succ k ih =>
    have h1 : k + 1 + b = (k + b) + 1 := by omega
    have h2 : s + (k + 1) = (s + 1) + k := by omega
    rw [h1, List.range'_succ, List.range'_succ, List.cons_append, h2, ih (s + 1)]

/-- The slot lists produced by `procesarSegmentos` starting at position `pos`
are contiguous ranges whose concatenation is an initial run from `pos`. -/
theorem procesarSegmentos_slots (segs : List String) (ip pos : Nat)
    (arm : String) (res : List Asig)
    (h : procesarSegmentos segs ip pos arm = .ok res) :
    (∃ total, ((res.map (fun e => e.2.1)).flatten = List.range' pos total))
    ∧ ∀ e ∈ res, ∃ s l, e.2.1 = List.range' s l := by
  induction segs generalizing ip pos arm res with
  | nil =>
    simp only [procesarSegmentos] at h
    cases h
    exact ⟨⟨0, by simp⟩, by simp⟩
  | cons seg resto ih =>
    simp only [procesarSegmentos] at h
    rcases hac : (procesarTokens arm (tokensDe seg)).2 with _ | ⟨⟨n, a⟩, _ | ⟨⟨n2, a2⟩, l⟩⟩
    · rw [hac] at h
      exact ih _ _ _ _ h
    · rw [hac] at h
      obtain ⟨r, hr, hres⟩ := map_eq_ok h
      obtain ⟨⟨t, ht⟩, hcada⟩ := ih _ _ _ _ hr
      subst hres
      refine ⟨⟨siguiente_grupo ip + siguiente_grupo (ip + 1) + t, ?_⟩, ?_⟩
      · simp only [List.map_cons, List.flatten_cons, ht, range'_concat]
      · intro e he
        rcases List.mem_cons.mp he with rfl | he
        · exact ⟨_, _, rfl⟩
        · exact hcada e he
    · cases l with
      | nil =>
        rw [hac] at h
        obtain ⟨r, hr, hres⟩ := map_eq_ok h
        obtain ⟨⟨t, ht⟩, hcada⟩ := ih _ _ _ _ hr
        subst hres
        refine ⟨⟨siguiente_grupo ip + (siguiente_grupo (ip + 1) + t), ?_⟩, ?_⟩
        · simp only [List.map_cons, List.flatten_cons, ht]
          rw [range'_concat (pos + siguiente_grupo ip) (siguiente_grupo (ip + 1)) t,
            range'_concat pos (siguiente_grupo ip) (siguiente_grupo (ip + 1) + t)]
        · intro e he
          rcases List.mem_cons.mp he with rfl | he
          · exact ⟨_, _, rfl⟩
          · rcases List.mem_cons.mp he with rfl | he
            · exact ⟨_, _, rfl⟩
            · exact hcada e he
      | cons p3 l3 =>
        rw [hac] at h
        cases h

/-- **C4.** For every progression text the scheduler accepts, each chord's
slot list is a contiguous range, the slot lists are pairwise disjoint, and
their concatenation in progression order is exactly `0, 1, …, N-1` for some
`N` (absolute indices, never reset at bar boundaries). -/
theorem C4_slots (texto : String) (armDefault : Option String)
    (res : List Asig) (n : Nat)
    (h : procesar_progresion_en_grupos texto armDefault = .ok (res, n)) :
    (∀ e ∈ res, ∃ s l, e.2.1 = List.range' s l)
    ∧ (∃ N, (res.map (fun e => e.2.1)).flatten = List.range N)
    ∧ List.Pairwise List.Disjoint (res.map (fun e => e.2.1)) := by
  obtain ⟨r, hr, hpair⟩ := map_eq_ok h
  have hres : res = r := congrArg Prod.fst hpair
  subst hres
  obtain ⟨⟨total, ht⟩, hcada⟩ := procesarSegmentos_slots _ _ _ _ _ hr
  have hrange : (res.map (fun e => e.2.1)).flatten = List.range total := by
    rw [ht, List.range_eq_range']
  refine ⟨hcada, ⟨total, hrange⟩, ?_⟩
  have hnd : ((res.map (fun e => e.2.1)).flatten).Nodup := by
    rw [hrange]; exact List.nodup_range total
  exact (List.nodup_flatten.mp hnd).2

/-- Witness for C4 at a concrete progression. -/
theorem C4_slots_witness :
    (∀ e ∈ [("Cmaj7", [0, 1, 2, 3, 4, 5, 6], ""),
            ("Dm7", [7, 8, 9, 10], ""),
            ("G7", [11, 12, 13], ""),
            ("Cmaj7", [14, 15, 16, 17, 18, 19, 20, 21, 22], "")],
        ∃ s l, (e : Asig).2.1 = List.range' s l)
    ∧ (∃ N, (([("Cmaj7", [0, 1, 2, 3, 4, 5, 6], ""),
            ("Dm7", [7, 8, 9, 10], ""),
            ("G7", [11, 12, 13], ""),
            ("Cmaj7", [14, 15, 16, 17, 18, 19, 20, 21, 22], "")] :
          List Asig).map (fun e => e.2.1)).flatten = List.range N) := by
  have h := C4_slots "Cmaj7 | Dm7 G7 | Cmaj7" none _ _ eval_progresion_ejemplo
  exact ⟨h.1, h.2.1⟩

/-! ### C5 : harmonization markers -/

/-- **C5.** A token prefixed with an inline marker `(8)`, `(10)`, `(13)` or
`(15)` sets the persistent harmonization style; the style is recorded for
that token's chord (when it carries chord text) and for every following
chord until another marker overrides it; a bare marker token only updates
the style and contributes no chord entry; already-recorded chords are never
changed retroactively (token processing is a left fold whose earlier output
does not depend on later tokens). -/
theorem C5_marcadores :
    (∀ arm token codigo resto, marcador token = some (codigo, resto) →
      resto ≠ "" →
      procesar_token arm token = (armMap codigo, some (resto, armMap codigo)))
    ∧ (∀ arm token codigo, marcador token = some (codigo, "") →
      procesar_token arm token = (armMap codigo, none))
    ∧ (∀ arm token, marcador token = none →
      procesar_token arm token = (arm, some (token, arm)))
    ∧ (∀ arm (ts : List String), (∀ t ∈ ts, marcador t = none) →
      procesarTokens arm ts = (arm, ts.map (fun t => (t, arm))))
    ∧ (∀ arm token codigo (ts : List String), marcador token = some (codigo, "") →
      procesarTokens arm (token :: ts) = procesarTokens (armMap codigo) ts)
    ∧ (∀ arm (l1 l2 : List String),
      procesarTokens arm (l1 ++ l2) =
        ((procesarTokens (procesarTokens arm l1).1 l2).1,
         (procesarTokens arm l1).2 ++ (procesarTokens (procesarTokens arm l1).1 l2).2)) := by
  have h1 : ∀ arm token codigo resto, marcador token = some (codigo, resto) →
      resto ≠ "" →
      procesar_token arm token = (armMap codigo, some (resto, armMap codigo)) := by
    intro arm token codigo resto hm hne
    simp [procesar_token, hm, hne]
  have h2 : ∀ arm token codigo, marcador token = some (codigo, "") →
      procesar_token arm token = (armMap codigo, none) := by
    intro arm token codigo hm
    simp [procesar_token, hm]
  have h3 : ∀ arm token, marcador token = none →
      procesar_token arm token = (arm, some (token, arm)) := by
    intro arm token hm
    simp [procesar_token, hm]
  refine ⟨h1, h2, h3, ?_, ?_, ?_⟩
  · intro arm ts h
    induction ts generalizing arm with
    | nil => rfl
    | cons t ts ih =>
      simp only [procesarTokens, h3 arm t (h t (by simp)),
        ih arm (fun x hx => h x (by simp [hx])), List.map_cons]
      rfl
  · intro arm token codigo ts hm
    simp only [procesarTokens, h2 arm token codigo hm]
    rcases procesarTokens (armMap codigo) ts with ⟨a2, acc⟩
    rfl
  · intro arm l1 l2
    induction l1 generalizing arm with
    | nil => simp [procesarTokens]
    | cons t ts ih =>
      simp only [List.cons_append, procesarTokens]
      cases hpt : procesar_token arm t with
      | mk a1 r =>
        simp only [List.append_eq, ih a1, List.append_assoc]

/-- Witness for C5 at concrete tokens: the marker `(10)Dm7` switches the
style to `Décimas` for that chord and the following ones, a bare `(13)`
switches it without emitting a chord, and earlier chords keep their style. -/
theorem C5_marcadores_witness :
    procesar_token "Octavas" "(10)Dm7" = ("Décimas", some ("Dm7", "Décimas"))
    ∧ procesar_token "Octavas" "(13)" = ("Treceavas", none)
    ∧ procesar_token "Décimas" "G7" = ("Décimas", some ("G7", "Décimas"))
    ∧ procesarTokens "Octavas" ["C7", "G7"] =
        ("Octavas", [("C7", "Octavas"), ("G7", "Octavas")])
    ∧ procesarTokens "Octavas" ["(13)", "C7"] = procesarTokens "Treceavas" ["C7"]
    ∧ procesarTokens "Octavas" (["C7"] ++ ["(10)Dm7"]) =
        ((procesarTokens (procesarTokens "Octavas" ["C7"]).1 ["(10)Dm7"]).1,
         (procesarTokens "Octavas" ["C7"]).2 ++
           (procesarTokens (procesarTokens "Octavas" ["C7"]).1 ["(10)Dm7"]).2) := by
  refine ⟨C5_marcadores.1 "Octavas" "(10)Dm7" "10" "Dm7" (by decide) (by decide),
    C5_marcadores.2.1 "Octavas" "(13)" "13" (by decide),
    C5_marcadores.2.2.1 "Décimas" "G7" (by decide),
    C5_marcadores.2.2.2.1 "Octavas" ["C7", "G7"] (by decide),
    C5_marcadores.2.2.2.2.1 "Octavas" "(13)" "13" ["C7"] (by decide),
    C5_marcadores.2.2.2.2.2 "Octavas" ["C7"] ["(10)Dm7"]⟩

/-! ### C6 : overlap resolution -/

/-- Structure of one `empujarNota` step: either the group's last note did not
overlap `n` (or the group was empty) and `n` is appended, or the last note is
truncated to end at `n.start` before `n` is appended. -/
theorem empujar_estructura (l : List Nota) (n : Nota) :
    (empujarNota l n = l ++ [n] ∧
      (l = [] ∨ ∃ init last, l = init ++ [last] ∧ ¬ last.stop > n.start))
    ∨ ∃ init last, l = init ++ [last] ∧ last.stop > n.start ∧
        empujarNota l n = init ++ [{ last with stop := n.start }, n] := by
  induction l with
  | nil => exact .inl ⟨rfl, .inl rfl⟩
  | cons m rest ih =>
    cases rest with
    | nil =>
      by_cases h : m.stop > n.start
      · exact .inr ⟨[], m, rfl, h, by simp [empujarNota, h]⟩
      · exact .inl ⟨by simp [empujarNota, h], .inr ⟨[], m, rfl, h⟩⟩
    | cons m2 rest2 =>
      have huf : empujarNota (m :: m2 :: rest2) n = m :: empujarNota (m2 :: rest2) n := rfl
      rcases ih with ⟨he, hcase⟩ | ⟨init, last, hl, hs, he⟩
      · refine .inl ⟨by rw [huf, he]; rfl, ?_⟩
        rcases hcase with hnil | ⟨init, last, hl, hs⟩
        · cases hnil
        · exact .inr ⟨m :: init, last, by rw [hl, List.cons_append], hs⟩
      · exact .inr ⟨m :: init, last, by rw [hl, List.cons_append], hs,
          by rw [huf, he, List.cons_append]⟩

/-- `empujarNota` preserves the multiset of note identities, adding `n`. -/
theorem empujar_clave (l : List Nota) (n : Nota) :
    (empujarNota l n).map clave = l.map clave ++ [clave n] := by
  rcases empujar_estructura l n with ⟨he, _⟩ | ⟨init, last, hl, _, he⟩
  · rw [he, List.map_append]; rfl
  · rw [he, hl]
    simp [clave]

/-- Every note of `empujarNota l n` is `n` itself or descends from a note of
`l` (same pitch/start/velocity, end unchanged or truncated to `n.start`
when it overhung `n.start`). -/
theorem empujar_miembros (l : List Nota) (n : Nota) :
    ∀ m ∈ empujarNota l n, m = n ∨ ∃ y ∈ l,
      m.pitch = y.pitch ∧ m.start = y.start ∧ m.velocity = y.velocity ∧
      (m.stop = y.stop ∨ (m.stop = n.start ∧ n.start < y.stop)) := by
  intro m hm
  rcases empujar_estructura l n with ⟨he, _⟩ | ⟨init, last, hl, hs, he⟩
  · rw [he] at hm
    rcases List.mem_append.mp hm with h | h
    · exact .inr ⟨m, h, rfl, rfl, rfl, .inl rfl⟩
    · simp only [List.mem_singleton] at h
      exact .inl h
  · rw [he] at hm
    rcases List.mem_append.mp hm with h | h
    · exact .inr ⟨m, by rw [hl]; exact List.mem_append_left _ h, rfl, rfl, rfl, .inl rfl⟩
    · rcases List.mem_cons.mp h with rfl | h
      · exact .inr ⟨last, by rw [hl]; simp, rfl, rfl, rfl, .inr ⟨rfl, hs⟩⟩
      · simp only [List.mem_singleton] at h
        exact .inl h

/-- `empujarNota` keeps the group chained when the incoming note starts no
earlier than every note already in the group. -/
theorem empujar_cadena (l : List Nota) (n : Nota)
    (hc : List.Chain' encadenada l)
    (hstart : ∀ m ∈ l, m.start ≤ n.start) :
    List.Chain' encadenada (empujarNota l n) := by
  rcases empujar_estructura l n with ⟨he, hcase⟩ | ⟨init, last, hl, hs, he⟩
  · rw [he]
    apply List.chain'_append.mpr
    refine ⟨hc, List.chain'_singleton n, ?_⟩
    intro x hx y hy
    simp only [List.head?_cons, Option.mem_def, Option.some.injEq] at hy
    subst hy
    rcases hcase with rfl | ⟨init, last, rfl, hns⟩
    · simp at hx
    · rw [List.getLast?_concat] at hx
      simp only [Option.mem_def, Option.some.injEq] at hx
      subst hx
      exact ⟨not_lt.mp hns, hstart _ (by simp)⟩
  · have hstart' : last.start ≤ n.start := hstart last (by rw [hl]; simp)
    subst hl
    rw [he]
    have hsplit := List.chain'_append.mp hc
    apply List.chain'_append.mpr
    refine ⟨hsplit.1, ?_, ?_⟩
    · exact List.chain'_cons.mpr
        ⟨⟨le_refl n.start, hstart'⟩, List.chain'_singleton n⟩
    · intro x hx y hy
      simp only [List.head?_cons, Option.mem_def, Option.some.injEq] at hy
      subst hy
      have h2 := hsplit.2.2 x hx last (by simp)
      exact ⟨h2.1, h2.2⟩

/-- The keys of the grouping dictionary after one insertion: unchanged, or
extended by the new pitch at the end. -/
theorem agregar_keys (g : List (Int × List Nota)) (p : Int) (n : Nota) :
    ((agregarAGrupo g p n).map (·.1) = g.map (·.1)) ∨
    ((agregarAGrupo g p n).map (·.1) = g.map (·.1) ++ [p]) := by
  induction g with
  | nil => exact .inr rfl
  | cons par rest ih =>
    rcases par with ⟨q, l⟩
    by_cases h : q = p
    · exact .inl (by simp [agregarAGrupo, h])
    · rcases ih with ih | ih
      · exact .inl (by simp [agregarAGrupo, h, ih])
      · exact .inr (by simp [agregarAGrupo, h, ih])

/-- Every pair of the dictionary after one insertion is an untouched old
pair, or the (unique) pair for pitch `p`, whose notes are `n` or descendants
of notes previously filed under `p`. -/
theorem agregar_miembros (g : List (Int × List Nota)) (p : Int) (n : Nota) :
    ∀ par ∈ agregarAGrupo g p n, par ∈ g ∨
      (par.1 = p ∧ ∀ m ∈ par.2, m = n ∨ ∃ par0 ∈ g, par0.1 = p ∧ ∃ y ∈ par0.2,
        m.pitch = y.pitch ∧ m.start = y.start ∧ m.velocity = y.velocity ∧
        (m.stop = y.stop ∨ (m.stop = n.start ∧ n.start < y.stop))) := by
  induction g with
  | nil =>
    intro par hpar
    simp only [agregarAGrupo, List.mem_singleton] at hpar
    subst hpar
    refine .inr ⟨rfl, ?_⟩
    intro m hm
    simp only [List.mem_singleton] at hm
    exact .inl hm
  | cons par1 rest ih =>
    rcases par1 with ⟨q, l⟩
    intro par hpar
    by_cases h : q = p
    · simp only [agregarAGrupo, if_pos h] at hpar
      rcases List.mem_cons.mp hpar with rfl | hpar
      · refine .inr ⟨h, ?_⟩
        intro m hm
        rcases empujar_miembros l n m hm with rfl | ⟨y, hy, h1, h2, h3, h4⟩
        · exact .inl rfl
        · exact .inr ⟨(q, l), by simp, h, y, hy, h1, h2, h3, h4⟩
      · exact .inl (List.mem_cons_of_mem _ hpar)
    · simp only [agregarAGrupo, if_neg h] at hpar
      rcases List.mem_cons.mp hpar with rfl | hpar
      · exact .inl (by simp)
      · rcases ih par hpar with hin | ⟨hp1, hdesc⟩
        · exact .inl (List.mem_cons_of_mem _ hin)
        · refine .inr ⟨hp1, ?_⟩
          intro m hm
          rcases hdesc m hm with rfl | ⟨par0, hpar0, hk, rest'⟩
          · exact .inl rfl
          · exact .inr ⟨par0, List.mem_cons_of_mem _ hpar0, hk, rest'⟩

/-- One insertion adds exactly the identity of `n` to the dictionary's
multiset of note identities. -/
theorem agregar_claves (g : List (Int × List Nota)) (p : Int) (n : Nota) :
    (((agregarAGrupo g p n).map (·.2)).flatten.map clave).Perm
      (((g.map (·.2)).flatten.map clave) ++ [clave n]) := by
  induction g with
  | nil => simp [agregarAGrupo]
  | cons par1 rest ih =>
    rcases par1 with ⟨q, l⟩
    by_cases h : q = p
    · simp only [agregarAGrupo, if_pos h, List.map_cons, List.flatten_cons,
        List.map_append, empujar_clave]
      rw [List.append_assoc, List.append_assoc]
      exact List.Perm.append_left _ List.perm_append_comm
    · simp only [agregarAGrupo, if_neg h, List.map_cons, List.flatten_cons,
        List.map_append]
      rw [List.append_assoc]
      exact List.Perm.append_left _ ih

/-- One insertion preserves the dictionary invariant when the new note's
start bounds the starts already filed under its pitch. -/
theorem agregar_buenos (g : List (Int × List Nota)) (p : Int) (n : Nota)
    (hb : BuenosGrupos g) (hp : n.pitch = p)
    (hstart : ∀ par ∈ g, par.1 = p → ∀ m ∈ par.2, m.start ≤ n.start) :
    BuenosGrupos (agregarAGrupo g p n) := by
  induction g with
  | nil =>
    refine ⟨by simp [agregarAGrupo], ?_⟩
    intro par hpar
    simp only [agregarAGrupo, List.mem_singleton] at hpar
    subst hpar
    exact ⟨by intro m hm; simp only [List.mem_singleton] at hm; rw [hm, hp],
      List.chain'_singleton n⟩
  | cons par1 rest ih =>
    rcases par1 with ⟨q, l⟩
    obtain ⟨hnd, hpares⟩ := hb
    rw [List.map_cons, List.nodup_cons] at hnd
    by_cases h : q = p
    · refine ⟨?_, ?_⟩
      · simp only [agregarAGrupo, if_pos h, List.map_cons, List.nodup_cons]
        exact hnd
      · intro par hpar
        simp only [agregarAGrupo, if_pos h] at hpar
        rcases List.mem_cons.mp hpar with rfl | hpar
        · obtain ⟨hpitch, hchain⟩ := hpares (q, l) (by simp)
          have hst : ∀ m ∈ l, m.start ≤ n.start :=
            hstart (q, l) (by simp) h
          refine ⟨?_, empujar_cadena l n hchain hst⟩
          intro m hm
          rcases empujar_miembros l n m hm with rfl | ⟨y, hy, h1, _, _, _⟩
          · rw [hp, h]
          · rw [h1, hpitch y hy]
        · exact hpares par (List.mem_cons_of_mem _ hpar)
    · have hb' : BuenosGrupos rest :=
        ⟨hnd.2, fun par hpar => hpares par (List.mem_cons_of_mem _ hpar)⟩
      have hst' : ∀ par ∈ rest, par.1 = p → ∀ m ∈ par.2, m.start ≤ n.start :=
        fun par hpar => hstart par (List.mem_cons_of_mem _ hpar)
      obtain ⟨hnd', hpares'⟩ := ih hb' hst'
      refine ⟨?_, ?_⟩
      · simp only [agregarAGrupo, if_neg h, List.map_cons, List.nodup_cons]
        refine ⟨?_, hnd'⟩
        rcases agregar_keys rest p n with hk | hk
        · rw [hk]; exact hnd.1
        · rw [hk]
          simp only [List.mem_append, List.mem_singleton]
          rintro (hq | rfl)
          · exact hnd.1 hq
          · exact h rfl
      · intro par hpar
        simp only [agregarAGrupo, if_neg h] at hpar
        rcases List.mem_cons.mp hpar with rfl | hpar
        · exact hpares (q, l) (by simp)
        · exact hpares' par hpar

/-- `Procedencia` is monotone in the origin list. -/
theorem procedencia_extender {origen : List Nota} {m : Nota} (l' : List Nota)
    (h : Procedencia origen m) : Procedencia (origen ++ l') m := by
  obtain ⟨n0, hn0, h1, h2, h3⟩ := h
  refine ⟨n0, List.mem_append_left _ hn0, h1, h2, ?_⟩
  rcases h3 with h3 | ⟨n2, hn2, h4, h5⟩
  · exact .inl h3
  · exact .inr ⟨n2, List.mem_append_left _ hn2, h4, h5⟩

/-- Main fold invariant of the grouping pass of
`_cortar_notas_superpuestas`: folding the (pitch, start)-sorted input into
the dictionary keeps the groups well-formed, preserves the multiset of note
identities, and only truncates ends as described by `Procedencia`. -/
theorem fold_grupos (entrada : List Nota) :
    ∀ (g : List (Int × List Nota)) (procesado : List Nota),
    List.Pairwise (fun a b => a.pitch = b.pitch → a.start ≤ b.start) entrada →
    BuenosGrupos g →
    (∀ par ∈ g, ∀ m ∈ par.2, ∀ f ∈ entrada, f.pitch = par.1 → m.start ≤ f.start) →
    (((g.map (·.2)).flatten.map clave).Perm (procesado.map clave)) →
    (∀ par ∈ g, ∀ m ∈ par.2, Procedencia procesado m) →
    BuenosGrupos (entrada.foldl (fun g n => agregarAGrupo g n.pitch n) g) ∧
    (((entrada.foldl (fun g n => agregarAGrupo g n.pitch n) g).map (·.2)).flatten.map
      clave).Perm ((procesado ++ entrada).map clave) ∧
    (∀ par ∈ entrada.foldl (fun g n => agregarAGrupo g n.pitch n) g,
      ∀ m ∈ par.2, Procedencia (procesado ++ entrada) m) := by
  induction entrada with
  | nil =>
    intro g procesado _ hb _ hperm hprov
    simp only [List.foldl_nil, List.append_nil]
    exact ⟨hb, hperm, hprov⟩
  | cons n rest ih =>
    intro g procesado hpw hb hfut hperm hprov
    have hpw' := List.pairwise_cons.mp hpw
    have hb' : BuenosGrupos (agregarAGrupo g n.pitch n) :=
      agregar_buenos g n.pitch n hb rfl
        (fun par hpar hkey m hm => hfut par hpar m hm n (by simp) hkey.symm)
    have hfut' : ∀ par ∈ agregarAGrupo g n.pitch n, ∀ m ∈ par.2,
        ∀ f ∈ rest, f.pitch = par.1 → m.start ≤ f.start := by
      intro par hpar m hm f hf hkey
      rcases agregar_miembros g n.pitch n par hpar with hin | ⟨hp1, hdesc⟩
      · exact hfut par hin m hm f (by simp [hf]) hkey
      · rcases hdesc m hm with rfl | ⟨par0, hpar0, hk, y, hy, _, h2, _, _⟩
        · exact hpw'.1 f hf (by rw [hkey, hp1])
        · rw [h2]
          exact hfut par0 hpar0 y hy f (by simp [hf]) (by rw [hkey, hp1, hk])
    have hperm' : (((agregarAGrupo g n.pitch n).map (·.2)).flatten.map clave).Perm
        ((procesado ++ [n]).map clave) := by
      refine (agregar_claves g n.pitch n).trans ?_
      rw [List.map_append]
      exact List.Perm.append_right _ hperm
    have hprov' : ∀ par ∈ agregarAGrupo g n.pitch n, ∀ m ∈ par.2,
        Procedencia (procesado ++ [n]) m := by
      intro par hpar m hm
      rcases agregar_miembros g n.pitch n par hpar with hin | ⟨hp1, hdesc⟩
      · exact procedencia_extender [n] (hprov par hin m hm)
      · rcases hdesc m hm with rfl | ⟨par0, hpar0, hk, y, hy, h1, h2, h3, h4⟩
        · exact ⟨m, by simp, rfl, le_refl _, .inl rfl⟩
        · obtain ⟨n0, hn0, hc1, hc2, hc3⟩ := hprov par0 hpar0 y hy
          have hcm : clave m = clave n0 := by
            rw [← hc1]
            simp only [clave, h1, h2, h3]
          rcases h4 with h4 | ⟨h4, h5⟩
          · refine ⟨n0, List.mem_append_left _ hn0, hcm, by rw [h4]; exact hc2, ?_⟩
            rcases hc3 with hc3 | ⟨n2, hn2, hd1, hd2⟩
            · exact .inl (by rw [h4, hc3])
            · exact .inr ⟨n2, List.mem_append_left _ hn2,
                by rw [hd1, ← h1], by rw [h4, hd2]⟩
          · refine ⟨n0, List.mem_append_left _ hn0, hcm,
              le_trans (by rw [h4]; exact le_of_lt h5) hc2, ?_⟩
            have hyp : y.pitch = n.pitch := by
              obtain ⟨hpitch, _⟩ := hb.2 par0 hpar0
              rw [hpitch y hy, hk]
            exact .inr ⟨n, by simp, by rw [h1, hyp], h4⟩
    have hfin := ih (agregarAGrupo g n.pitch n) (procesado ++ [n]) hpw'.2 hb' hfut'
      hperm' hprov'
    rw [List.append_assoc, List.singleton_append] at hfin
    exact hfin

/-- Well-formed groups flatten to a pairwise non-overlapping note list. -/
theorem grupos_sin_solape (g : List (Int × List Nota)) (hb : BuenosGrupos g) :
    List.Pairwise sinSolape ((g.map (·.2)).flatten) := by
  apply List.pairwise_flatten.mpr
  constructor
  · intro l hl
    rcases List.mem_map.mp hl with ⟨par, hpar, rfl⟩
    have hchain := (hb.2 par hpar).2
    exact ((List.chain'_iff_pairwise).mp hchain).imp (fun h => fun _ => .inl h.1)
  · have hnd : List.Pairwise (fun a b => a ≠ b) (g.map (·.1)) := hb.1
    have hnd' : List.Pairwise (fun p1 p2 => p1.1 ≠ p2.1) g :=
      (List.pairwise_map).mp hnd
    rw [List.pairwise_map]
    refine hnd'.imp_of_mem ?_
    intro par1 par2 h1 h2 hne x hx y hy hpitch
    exfalso
    apply hne
    rw [← (hb.2 par1 h1).1 x hx, ← (hb.2 par2 h2).1 y hy, hpitch]

/-- `Procedencia` transports along permutations of the origin. -/
theorem procedencia_perm {l l' : List Nota} {m : Nota} (hp : l.Perm l')
    (h : Procedencia l m) : Procedencia l' m := by
  obtain ⟨n0, hn0, h1, h2, h3⟩ := h
  refine ⟨n0, hp.mem_iff.mp hn0, h1, h2, ?_⟩
  rcases h3 with h3 | ⟨n2, hn2, h4, h5⟩
  · exact .inl h3
  · exact .inr ⟨n2, hp.mem_iff.mp hn2, h4, h5⟩

/-- **C6.** After `_cortar_notas_superpuestas`, any two same-pitch notes of
the result have non-overlapping half-open intervals `[start, stop)` (one of
them ends at or before the other starts); the multiset of
(pitch, start, velocity) triples is exactly that of the input (no note is
deleted and no start is moved); and every end time is the original one or a
truncation down to the start of another same-pitch input note. -/
theorem C6_solapamientos (notas : List Nota) :
    List.Pairwise sinSolape (cortar_notas_superpuestas notas)
    ∧ ((cortar_notas_superpuestas notas).map clave).Perm (notas.map clave)
    ∧ ∀ m ∈ cortar_notas_superpuestas notas, Procedencia notas m := by
  have hdef : cortar_notas_superpuestas notas = List.insertionSort porStartPitch
      ((((List.insertionSort porPitchStart notas).foldl
          (fun g n => agregarAGrupo g n.pitch n) []).map (·.2)).flatten) := rfl
  have hperm0 : (List.insertionSort porPitchStart notas).Perm notas :=
    List.perm_insertionSort _ _
  have hpw : List.Pairwise (fun a b => a.pitch = b.pitch → a.start ≤ b.start)
      (List.insertionSort porPitchStart notas) := by
    have hs : List.Pairwise porPitchStart (List.insertionSort porPitchStart notas) :=
      List.sorted_insertionSort porPitchStart notas
    refine hs.imp ?_
    intro a b hab heq
    rcases hab with h | ⟨_, h2⟩
    · exact absurd heq (ne_of_lt h)
    · exact h2
  obtain ⟨hb, hperm, hprov⟩ :=
    fold_grupos (List.insertionSort porPitchStart notas) [] [] hpw
      ⟨by simp, by simp⟩ (by simp) (by simp) (by simp)
  rw [List.nil_append] at hperm hprov
  have hperm1 : (List.insertionSort porStartPitch
      ((((List.insertionSort porPitchStart notas).foldl
          (fun g n => agregarAGrupo g n.pitch n) []).map (·.2)).flatten)).Perm
      ((((List.insertionSort porPitchStart notas).foldl
          (fun g n => agregarAGrupo g n.pitch n) []).map (·.2)).flatten) :=
    List.perm_insertionSort _ _
  refine ⟨?_, ?_, ?_⟩
  · rw [hdef]
    exact (hperm1.pairwise_iff @sinSolape_symm).mpr
      (grupos_sin_solape _ hb)
  · rw [hdef]
    exact ((hperm1.map clave).trans hperm).trans (hperm0.map clave)
  · intro m hm
    rw [hdef] at hm
    have hm' := hperm1.mem_iff.mp hm
    rcases List.mem_flatten.mp hm' with ⟨l, hl, hml⟩
    rcases List.mem_map.mp hl with ⟨par, hpar, rfl⟩
    exact procedencia_perm hperm0 (hprov par hpar m hml)

/-! ### C7 : truncation to the destination length -/

/-- Membership in `_recortar_notas_a_limite`: exactly the input notes that
start before the limit, with ends capped at the limit. -/
theorem recortar_mem (l : List Nota) (limite : ℚ) (m : Nota) :
    m ∈ recortar_notas_a_limite l limite ↔
      ∃ x ∈ l, ¬ x.start ≥ limite ∧
        m = (if x.stop > limite then { x with stop := limite } else x) := by
  unfold recortar_notas_a_limite
  rw [List.mem_map]
  constructor
  · rintro ⟨x, hx, rfl⟩
    have := List.mem_filter.mp hx
    exact ⟨x, this.1, by simpa using this.2, rfl⟩
  · rintro ⟨x, hx, hns, rfl⟩
    exact ⟨x, List.mem_filter.mpr ⟨hx, by simpa using hns⟩, rfl⟩

/-- **C7.** For a destination of `num_compases * 8` slots with eighth-note
duration `grid`, the exported note list contains no note starting at or
after the limit `num_compases * 8 * grid`, every note's end is at most the
limit (notes that overhung it are kept, shortened to end exactly at the
limit), and the zero-effect marker note ending exactly at the limit is
appended as the final note — so the final note's end equals the limit. -/
theorem C7_recorte (notas : List Nota) (num_compases : Nat) (grid : ℚ)
    (hg : 0 < grid) (hc : 0 < num_compases) :
    (∀ m ∈ notas_exportadas notas num_compases grid,
        m.start < ((num_compases * 8 : Nat) : ℚ) * grid ∧
        m.stop ≤ ((num_compases * 8 : Nat) : ℚ) * grid)
    ∧ (∀ m ∈ cortar_notas_superpuestas notas,
        m.start < ((num_compases * 8 : Nat) : ℚ) * grid →
        (if m.stop > ((num_compases * 8 : Nat) : ℚ) * grid
          then { m with stop := ((num_compases * 8 : Nat) : ℚ) * grid } else m) ∈
          notas_exportadas notas num_compases grid)
    ∧ (notas_exportadas notas num_compases grid).getLast? =
        some (notaMarcador (((num_compases * 8 : Nat) : ℚ) * grid) grid) := by
  have hpos : (0 : ℚ) < ((num_compases * 8 : Nat) : ℚ) * grid := by
    apply mul_pos _ hg
    exact_mod_cast Nat.pos_of_ne_zero (by omega)
  have hdef : notas_exportadas notas num_compases grid =
      recortar_notas_a_limite (cortar_notas_superpuestas notas)
        (((num_compases * 8 : Nat) : ℚ) * grid) ++
      [notaMarcador (((num_compases * 8 : Nat) : ℚ) * grid) grid] := by
    unfold notas_exportadas
    rw [if_pos hpos]
  refine ⟨?_, ?_, ?_⟩
  · intro m hm
    rw [hdef] at hm
    rcases List.mem_append.mp hm with hm | hm
    · rcases (recortar_mem _ _ m).mp hm with ⟨x, _, hxs, hme⟩
      by_cases hstop : x.stop > ((num_compases * 8 : Nat) : ℚ) * grid
      · rw [hme, if_pos hstop]
        exact ⟨lt_of_not_le hxs, le_refl _⟩
      · rw [hme, if_neg hstop]
        exact ⟨lt_of_not_le hxs, le_of_not_lt hstop⟩
    · simp only [List.mem_singleton] at hm
      subst hm
      refine ⟨?_, le_refl _⟩
      simp only [notaMarcador]
      apply max_lt hpos
      linarith
  · intro m hm hstart
    rw [hdef]
    apply List.mem_append_left
    exact (recortar_mem _ _ _).mpr ⟨m, hm, not_le.mpr hstart, rfl⟩
  · rw [hdef]
    exact List.getLast?_concat _

/-- Witness for C7 at a concrete one-bar render. -/
theorem C7_recorte_witness :
    (∀ m ∈ notas_exportadas [⟨60, 0, 100, 90⟩] 1 1,
        m.start < ((1 * 8 : Nat) : ℚ) * 1 ∧ m.stop ≤ ((1 * 8 : Nat) : ℚ) * 1)
    ∧ (∀ m ∈ cortar_notas_superpuestas [⟨60, 0, 100, 90⟩],
        m.start < ((1 * 8 : Nat) : ℚ) * 1 →
        (if m.stop > ((1 * 8 : Nat) : ℚ) * 1
          then { m with stop := ((1 * 8 : Nat) : ℚ) * 1 } else m) ∈
          notas_exportadas [⟨60, 0, 100, 90⟩] 1 1)
    ∧ (notas_exportadas [⟨60, 0, 100, 90⟩] 1 1).getLast? =
        some (notaMarcador (((1 * 8 : Nat) : ℚ) * 1) 1) :=
  C7_recorte [⟨60, 0, 100, 90⟩] 1 1 (by norm_num) (by norm_num)

/-! ### C1 / C10 : the voicing generator -/

theorem ajustar_mod (pc t : Int) : ajustar pc t % 12 = pc % 12 := by
  unfold ajustar
  dsimp only
  split <;> omega

theorem subirAlMinimo_mod (p : Int) : subirAlMinimo p % 12 = p % 12 := by
  induction p using subirAlMinimo.induct with
  | case1 p hlt ih =>
    rw [subirAlMinimo, if_pos hlt]
    omega
  | case2 p hlt =>
    rw [subirAlMinimo, if_neg hlt]

theorem bajarAlMaximo_mod (p : Int) : bajarAlMaximo p % 12 = p % 12 := by
  induction p using bajarAlMaximo.induct with
  | case1 p hlt ih =>
    rw [bajarAlMaximo, if_pos hlt]
    omega
  | case2 p hlt =>
    rw [bajarAlMaximo, if_neg hlt]

theorem ajustar_octava_mod (p : Int) : ajustar_octava p % 12 = p % 12 := by
  unfold ajustar_octava
  rw [bajarAlMaximo_mod, subirAlMinimo_mod]

theorem subirSobreBajo_mod (b p : Int) : subirSobreBajo b p % 12 = p % 12 := by
  induction p using subirSobreBajo.induct b with
  | case1 x hle ih =>
    rw [subirSobreBajo, if_pos hle]
    omega
  | case2 x hle =>
    rw [subirSobreBajo, if_neg hle]

theorem subirSobreBajo_gt (b p : Int) : b < subirSobreBajo b p := by
  induction p using subirSobreBajo.induct b with
  | case1 x hle ih =>
    rw [subirSobreBajo, if_pos hle]
    exact ih
  | case2 x hle =>
    rw [subirSobreBajo, if_neg hle]
    omega

/-- A sorted permutation of `b :: resto` with every element of `resto`
above `b` starts with `b`, and its tail stays above `b`. -/
theorem cabeza_minima (b : Int) (resto : List Int) (v : List Int)
    (hperm : v.Perm (b :: resto)) (hs : List.Sorted (· ≤ ·) v)
    (hgt : ∀ x ∈ resto, b < x) : v = b :: v.tail ∧ ∀ x ∈ v.tail, b < x := by
  cases v with
  | nil =>
    have := hperm.length_eq
    simp at this
  | cons b' t' =>
    have hb' : b' ∈ b :: resto := hperm.mem_iff.mp (by simp)
    have hbb' : b' = b := by
      rcases List.mem_cons.mp hb' with h | h
      · exact h
      · have hbv : b ∈ b' :: t' := hperm.mem_iff.mpr (by simp)
        rcases List.mem_cons.mp hbv with h2 | h2
        · exact absurd (h2 ▸ hgt b' h) (lt_irrefl b')
        · have hle : b' ≤ b := (List.sorted_cons.mp hs).1 b h2
          exact absurd (lt_of_le_of_lt hle (hgt b' h)) (lt_irrefl b')
    subst hbb'
    refine ⟨rfl, ?_⟩
    intro x hx
    exact hgt x (hperm.cons_inv.mem_iff.mp hx)

/-- A successful association-list lookup yields a member. -/
theorem lookup_mem {α β : Type} [BEq α] [LawfulBEq α] {l : List (α × β)}
    {k : α} {v : β} (h : l.lookup k = some v) : (k, v) ∈ l := by
  obtain ⟨l₁, l₂, rfl, _⟩ := List.lookup_eq_some_iff.mp h
  simp

/-- Every interval-table entry has at least four interval values. -/
theorem tabla_larga : ∀ par ∈ INTERVALOS_TRADICIONALES, 4 ≤ par.2.length := by
  decide

/-- In every interval-table entry, the third and fourth interval classes
differ from the first (root) and second (third) classes. -/
theorem tabla_distinta : ∀ par ∈ INTERVALOS_TRADICIONALES,
    par.2.getD 2 0 % 12 ≠ par.2.getD 0 0 % 12 ∧
    par.2.getD 2 0 % 12 ≠ par.2.getD 1 0 % 12 ∧
    par.2.getD 3 0 % 12 ≠ par.2.getD 0 0 % 12 ∧
    par.2.getD 3 0 % 12 ≠ par.2.getD 1 0 % 12 := by
  decide

/-- In the four altered-ninth entries, none of the first four interval
classes equals the flat-ninth class `13 % 12 = 1`. -/
theorem tabla_b9 : ∀ par ∈ INTERVALOS_TRADICIONALES,
    par.1 ∈ (["7(b9)", "+7(b9)", "7(b5)b9", "7sus4(b9)"] : List String) →
    par.2.getD 0 0 % 12 ≠ 1 ∧ par.2.getD 1 0 % 12 ≠ 1 ∧
    par.2.getD 2 0 % 12 ≠ 1 ∧ par.2.getD 3 0 % 12 ≠ 1 := by
  decide

/-- One loop iteration of the voicing generator satisfies the per-chord
voicing specification. -/
theorem voicing_ensamblado (nombre : String) (root : Int) (suf : String)
    (ints : List Int) (bajo : Int) (ns : List Int)
    (hp : parsear_nombre_acorde nombre = .ok (root, suf))
    (hl : INTERVALOS_TRADICIONALES.lookup suf = some ints)
    (hlen : ns.length = 3)
    (hbajo : bajo % 12 = (root + ints.getD 2 0) % 12 ∨
      bajo % 12 = (root + ints.getD 3 0) % 12)
    (hns : ∀ x ∈ ns, bajo < x ∧ (x % 12 = (root + ints.getD 0 0) % 12 ∨
      x % 12 = (root + ints.getD 1 0) % 12 ∨ x % 12 = (root + ints.getD 2 0) % 12 ∨
      x % 12 = (root + ints.getD 3 0) % 12)) :
    VoicingAcorde nombre (List.insertionSort (· ≤ ·) (bajo :: ns)) := by
  have hdist := tabla_distinta _ (lookup_mem hl)
  dsimp only at hdist
  obtain ⟨hcab, hcola⟩ := cabeza_minima bajo ns _ (List.perm_insertionSort _ _)
    (List.sorted_insertionSort _ _) (fun x hx => (hns x hx).1)
  refine ⟨root, suf, ints, bajo, (List.insertionSort (· ≤ ·) (bajo :: ns)).tail,
    hp, hl, hcab, ?_, List.sorted_insertionSort _ _, hcola, hbajo, ?_, ?_, ?_⟩
  · rw [List.length_insertionSort, List.length_cons, hlen]
  · rcases hbajo with hb | hb <;> rw [hb] <;> intro hcontra
    · exact hdist.1 (by omega)
    · exact hdist.2.2.1 (by omega)
  · rcases hbajo with hb | hb <;> rw [hb] <;> intro hcontra
    · exact hdist.2.1 (by omega)
    · exact hdist.2.2.2 (by omega)
  · intro x hx
    have hx' := (List.perm_insertionSort _ _).mem_iff.mp hx
    rcases List.mem_cons.mp hx' with rfl | hx'
    · rcases hbajo with hb | hb
      · exact .inr (.inr (.inl hb))
      · exact .inr (.inr (.inr hb))
    · exact (hns x hx').2

/-- One loop iteration of the voicing generator satisfies the per-chord
voicing specification. -/
theorem generar_voicing_spec (bajoAnt : Int) (nombre : String)
    (v : List Int) (bajo : Int)
    (h : generar_voicing bajoAnt nombre = .ok (v, bajo)) :
    VoicingAcorde nombre v := by
  unfold generar_voicing at h
  cases hp : parsear_nombre_acorde nombre with
  | error e =>
    rw [hp] at h
    simp [Bind.bind, Except.bind] at h
  | ok rs =>
    rcases rs with ⟨root, suf⟩
    rw [hp] at h
    simp only [Bind.bind, Except.bind] at h
    cases hl : INTERVALOS_TRADICIONALES.lookup suf with
    | none =>
      rw [hl] at h
      simp at h
    | some ints =>
      rw [hl] at h
      have hlen4 : 4 ≤ ints.length := tabla_larga _ (lookup_mem hl)
      have hpcs : ∀ k, k < 4 →
          (ints.map (fun i => (root + i) % 12)).getD k 0 =
            (root + ints.getD k 0) % 12 := by
        intro k hk
        have hk' : k < ints.length := by omega
        have hk'' : k < (ints.map (fun i => (root + i) % 12)).length := by
          rw [List.length_map]; omega
        rw [List.getD_eq_getElem _ _ hk'', List.getElem_map,
          List.getD_eq_getElem _ _ hk']
      have hmod : ∀ b pc ref, (subirSobreBajo b
          (ajustar_octava (subirSobreBajo b (ajustar pc ref)))) % 12 = pc % 12 := by
        intro b pc ref
        rw [subirSobreBajo_mod, ajustar_octava_mod, subirSobreBajo_mod, ajustar_mod]
      by_cases he :
          |ajustar ((ints.map (fun i => (root + i) % 12)).getD 2 0) bajoAnt - bajoAnt| ≤
          |ajustar ((ints.map (fun i => (root + i) % 12)).getD 3 0) bajoAnt - bajoAnt|
      · simp only [if_pos he, Except.ok.injEq, Prod.mk.injEq] at h
        obtain ⟨hv, hbajo⟩ := h
        rw [← hv]
        apply voicing_ensamblado nombre root suf ints _ _ hp hl (by simp [referencia])
        · left
          rw [ajustar_octava_mod, ajustar_mod, hpcs 2 (by omega)]
          omega
        · intro x hx
          simp only [referencia, List.drop_succ_cons, List.drop_zero,
            List.zip_cons_cons, List.zip_nil_right, List.map_cons, List.map_nil,
            List.mem_cons, List.not_mem_nil, or_false] at hx
          rcases hx with rfl | rfl | rfl
          · exact ⟨subirSobreBajo_gt _ _, .inl (by rw [hmod, hpcs 0 (by omega)]; omega)⟩
          · exact ⟨subirSobreBajo_gt _ _,
              .inr (.inl (by rw [hmod, hpcs 1 (by omega)]; omega))⟩
          · exact ⟨subirSobreBajo_gt _ _,
              .inr (.inr (.inr (by rw [hmod, hpcs 3 (by omega)]; omega)))⟩
      · simp only [if_neg he, Except.ok.injEq, Prod.mk.injEq] at h
        obtain ⟨hv, hbajo⟩ := h
        rw [← hv]
        apply voicing_ensamblado nombre root suf ints _ _ hp hl (by simp [referencia])
        · right
          rw [ajustar_octava_mod, ajustar_mod, hpcs 3 (by omega)]
          omega
        · intro x hx
          simp only [referencia, List.drop_succ_cons, List.drop_zero,
            List.zip_cons_cons, List.zip_nil_right, List.map_cons, List.map_nil,
            List.mem_cons, List.not_mem_nil, or_false] at hx
          rcases hx with rfl | rfl | rfl
          · exact ⟨subirSobreBajo_gt _ _, .inl (by rw [hmod, hpcs 0 (by omega)]; omega)⟩
          · exact ⟨subirSobreBajo_gt _ _,
              .inr (.inl (by rw [hmod, hpcs 1 (by omega)]; omega))⟩
          · exact ⟨subirSobreBajo_gt _ _,
              .inr (.inr (.inl (by rw [hmod, hpcs 2 (by omega)]; omega)))⟩

/-- The voicing generator yields one specification-conforming voicing per
chord, in order, for any starting bass. -/
theorem generarVoicingsDesde_spec (prog : List String) :
    ∀ (b0 : Int) (vs : List (List Int)), generarVoicingsDesde b0 prog = .ok vs →
      vs.length = prog.length ∧
      ∀ i, i < vs.length → VoicingAcorde (prog.getD i "") (vs.getD i []) := by
  induction prog with
  | nil =>
    intro b0 vs h
    simp only [generarVoicingsDesde] at h
    cases h
    simp
  | cons nombre resto ih =>
    intro b0 vs h
    simp only [generarVoicingsDesde, Bind.bind, Except.bind] at h
    cases hv : generar_voicing b0 nombre with
    | error e =>
      rw [hv] at h
      simp at h
    | ok par =>
      rcases par with ⟨v, bajo⟩
      rw [hv] at h
      dsimp only at h
      cases hr : generarVoicingsDesde bajo resto with
      | error e =>
        rw [hr] at h
        simp at h
      | ok vs' =>
        rw [hr] at h
        simp only [Except.ok.injEq] at h
        subst h
        obtain ⟨hlen, hspec⟩ := ih bajo vs' hr
        refine ⟨by simp [hlen], ?_⟩
        intro i hi
        cases i with
        | zero =>
          exact generar_voicing_spec b0 nombre v bajo hv
        | succ j =>
          simp only [List.getD_cons_succ]
          exact hspec j (by simpa using hi)

/-- **C1.** For every progression the voicing generator accepts, it returns
one voicing per chord in order; each voicing is a 4-element ascending list
of MIDI pitches whose lowest pitch's class is the chord's fifth
(`root + ints[2] mod 12`) or seventh-equivalent (`root + ints[3] mod 12`),
never the root's or the third's class, with the three remaining tones
strictly above the bass. -/
theorem C1_voicings (prog : List String) (vs : List (List Int))
    (h : generar_voicings_enlazados_tradicional prog = .ok vs) :
    vs.length = prog.length ∧
    ∀ i, i < vs.length → VoicingAcorde (prog.getD i "") (vs.getD i []) :=
  generarVoicingsDesde_spec prog 55 vs h

/-- Concrete evaluation of the voicing generator on `["C7"]`. -/
theorem eval_voicing_C7 :
    generar_voicings_enlazados_tradicional ["C7"] = .ok [[55, 58, 60, 64]] := by
  simp [generar_voicings_enlazados_tradicional, generarVoicingsDesde, generar_voicing,
    parsear_nombre_acorde, dividirRaiz, SUFIJOS, NOTAS, INTERVALOS_TRADICIONALES,
    ajustar, ajustar_octava, subirAlMinimo, bajarAlMaximo, subirSobreBajo,
    RANGO_MIN, RANGO_MAX, referencia, List.lookup, Bind.bind, Except.bind]

/-- Witness for C1 at the concrete progression `["C7"]`. -/
theorem C1_voicings_witness :
    ([[55, 58, 60, 64]] : List (List Int)).length = (["C7"] : List String).length ∧
    ∀ i, i < ([[55, 58, 60, 64]] : List (List Int)).length →
      VoicingAcorde ((["C7"] : List String).getD i "")
        (([[55, 58, 60, 64]] : List (List Int)).getD i []) :=
  C1_voicings ["C7"] [[55, 58, 60, 64]] eval_voicing_C7

/-- **C10.** For chords whose suffix maps to a 5-entry interval set, the
generated voicing still has exactly 4 notes and no note's pitch class equals
the flat ninth (`root + 13 mod 12`): the fifth interval entry never appears
in a generated voicing. -/
theorem C10_sin_novena (prog : List String) (vs : List (List Int))
    (h : generar_voicings_enlazados_tradicional prog = .ok vs)
    (i : Nat) (hi : i < vs.length) (root : Int) (suf : String)
    (hp : parsear_nombre_acorde (prog.getD i "") = .ok (root, suf))
    (hs : suf ∈ (["7(b9)", "+7(b9)", "7(b5)b9", "7sus4(b9)"] : List String)) :
    (vs.getD i []).length = 4 ∧
    ∀ x ∈ vs.getD i [], x % 12 ≠ (root + 13) % 12 := by
  obtain ⟨hlen, hspec⟩ := generarVoicingsDesde_spec prog 55 vs h
  obtain ⟨root', suf', ints, bajo, resto, hp', hl', hv, hlen4, _, _, _, _, _, hallpc⟩ :=
    hspec i hi
  rw [hp] at hp'
  simp only [Except.ok.injEq, Prod.mk.injEq] at hp'
  obtain ⟨hroot, hsuf⟩ := hp'
  subst hroot
  subst hsuf
  obtain ⟨hb0, hb1, hb2, hb3⟩ := tabla_b9 _ (lookup_mem hl') hs
  dsimp only at hb0 hb1 hb2 hb3
  refine ⟨hlen4, ?_⟩
  intro x hx
  have h4 := hallpc x hx
  intro hcontra
  rcases h4 with h4 | h4 | h4 | h4 <;> omega

/-- Concrete evaluation of the voicing generator on `["C7(b9)"]`. -/
theorem eval_voicing_C7b9 :
    generar_voicings_enlazados_tradicional ["C7(b9)"] = .ok [[55, 58, 60, 64]] := by
  simp [generar_voicings_enlazados_tradicional, generarVoicingsDesde, generar_voicing,
    parsear_nombre_acorde, dividirRaiz, SUFIJOS, NOTAS, INTERVALOS_TRADICIONALES,
    ajustar, ajustar_octava, subirAlMinimo, bajarAlMaximo, subirSobreBajo,
    RANGO_MIN, RANGO_MAX, referencia, List.lookup, Bind.bind, Except.bind]

/-- Witness for C10 at the concrete progression `["C7(b9)"]`. -/
theorem C10_sin_novena_witness :
    (([[55, 58, 60, 64]] : List (List Int)).getD 0 []).length = 4 ∧
    ∀ x ∈ ([[55, 58, 60, 64]] : List (List Int)).getD 0 [],
      x % 12 ≠ ((0 : Int) + 13) % 12 :=
  C10_sin_novena ["C7(b9)"] [[55, 58, 60, 64]] eval_voicing_C7b9 0 (by decide)
    0 "7(b9)" (by decide) (by decide)

/-! ### C8 : error propagation for unparseable chords -/

/-- A chord whose symbol the pattern rejects, or whose suffix has no
interval entry, makes `generar_voicing` fail for every previous bass. -/
theorem generar_voicing_falla (nombre : String)
    (hfail : (∃ e, parsear_nombre_acorde nombre = .error e) ∨
      ∃ root suf, parsear_nombre_acorde nombre = .ok (root, suf) ∧
        INTERVALOS_TRADICIONALES.lookup suf = none) :
    ∀ b, ∃ e, generar_voicing b nombre = .error e := by
  intro b
  unfold generar_voicing
  rcases hfail with ⟨e, he⟩ | ⟨root, suf, hp, hl⟩
  · exact ⟨e, by simp only [he, Bind.bind, Except.bind]⟩
  · refine ⟨"KeyError: " ++ suf, ?_⟩
    simp only [hp, Bind.bind, Except.bind]
    rw [hl]

/-- A failing chord anywhere in the progression makes the whole voicing
generation fail, for every starting bass. -/
theorem generarVoicingsDesde_falla (prog : List String) (nombre : String)
    (hmem : nombre ∈ prog)
    (hfail : (∃ e, parsear_nombre_acorde nombre = .error e) ∨
      ∃ root suf, parsear_nombre_acorde nombre = .ok (root, suf) ∧
        INTERVALOS_TRADICIONALES.lookup suf = none) :
    ∀ b, ∃ e, generarVoicingsDesde b prog = .error e := by
  induction prog with
  | nil => simp at hmem
  | cons cab resto ih =>
    intro b
    rcases List.mem_cons.mp hmem with rfl | hmem'
    · obtain ⟨e, he⟩ := generar_voicing_falla nombre hfail b
      exact ⟨e, by simp only [generarVoicingsDesde, Bind.bind, Except.bind, he]⟩
    · cases hv : generar_voicing b cab with
      | error e =>
        exact ⟨e, by simp only [generarVoicingsDesde, Bind.bind, Except.bind, hv]⟩
      | ok par =>
        obtain ⟨e, he⟩ := ih hmem' par.2
        refine ⟨e, ?_⟩
        simp only [generarVoicingsDesde, Bind.bind, Except.bind, hv]
        rw [show par = (par.1, par.2) from rfl] at hv ⊢
        simp only [he]

/-- **C8** (amended).  If the scheduler accepts the progression and some
scheduled chord symbol is rejected by the chord pattern — or carries the
bare suffix `m`, which the pattern accepts but which has no interval
entry — then `montuno_tradicional` fails with an error before producing
any output (voicing generation runs before `exportar_montuno` writes
anything, and the error propagates synchronously without being
defaulted). -/
theorem C8_error_propagada (texto : String) (armD : Option String)
    (asigs : List Asig) (n : Nat)
    (h : procesar_progresion_en_grupos texto armD = .ok (asigs, n))
    (nombre : String) (hmem : nombre ∈ asigs.map (·.1))
    (hfail : (∃ e, parsear_nombre_acorde nombre = .error e) ∨
      ∃ root suf, parsear_nombre_acorde nombre = .ok (root, suf) ∧
        INTERVALOS_TRADICIONALES.lookup suf = none) :
    ∃ e, montuno_tradicional texto armD = .error e := by
  obtain ⟨e, he⟩ :=
    generarVoicingsDesde_falla (asigs.map (·.1)) nombre hmem hfail 55
  refine ⟨e, ?_⟩
  unfold montuno_tradicional
  simp only [h, Bind.bind, Except.bind, generar_voicings_enlazados_tradicional, he]

/-- Witness for C8 at the unparseable chord `"Cx"`. -/
theorem C8_error_propagada_witness :
    ∃ e, montuno_tradicional "Cx" none = .error e :=
  C8_error_propagada "Cx" none [("Cx", List.range' 0 7, "")] 1 (by decide)
    "Cx" (by decide) (.inl ⟨"Acorde no reconocido: Cx", by decide⟩)

/-- Counterexample to C8 as stated: the chord `"Cm"` has a suffix (`m`)
that is **not** in the interval lookup table, yet parsing does *not* raise
the unrecognized-chord error — the regex accepts the bare `m` and the
failure only surfaces later, as a key-lookup error during voicing
generation (still aborting the run with no output, but with a different
error than the claim asserts). -/
theorem C8_contraejemplo :
    parsear_nombre_acorde "Cm" = .ok (0, "m")
    ∧ INTERVALOS_TRADICIONALES.lookup "m" = none
    ∧ montuno_tradicional "Cm" none = .error "KeyError: m" := by
  refine ⟨by decide, by decide, by decide⟩

/-! ### C9 : bass continuity at harmonization-style changes -/

theorem bajarSalto_spec (b p : Int) :
    bajarSalto b p - b < 12 ∧ 12 ∣ (bajarSalto b p - p) := by
  induction p using bajarSalto.induct b with
  | case1 x hge ih =>
    rw [bajarSalto, if_pos hge]
    exact ⟨ih.1, by omega⟩
  | case2 x hge =>
    rw [bajarSalto, if_neg hge]
    exact ⟨by omega, by omega⟩

theorem subirSalto_spec (b p : Int) :
    b - subirSalto b p < 12 ∧ 12 ∣ (subirSalto b p - p) ∧
    (p - b < 12 → subirSalto b p - b < 12) := by
  induction p using subirSalto.induct b with
  | case1 x hge ih =>
    rw [subirSalto, if_pos hge]
    exact ⟨ih.1, by omega, fun _ => ih.2.2 (by omega)⟩
  | case2 x hge =>
    rw [subirSalto, if_neg hge]
    exact ⟨by omega, by omega, fun h => by omega⟩

/-- `_ajustar_salto` with a previous pitch transposes by whole octaves and
lands strictly within an octave of the previous pitch. -/
theorem ajustar_salto_spec (b p : Int) :
    |ajustar_salto (some b) p - b| < 12 ∧ 12 ∣ (ajustar_salto (some b) p - p) := by
  have hdef : ajustar_salto (some b) p = subirSalto b (bajarSalto b p) := rfl
  obtain ⟨b1, b2⟩ := bajarSalto_spec b p
  obtain ⟨s1, s2, s3⟩ := subirSalto_spec b (bajarSalto b p)
  rw [hdef, abs_lt]
  exact ⟨⟨by omega, by have := s3 b1; omega⟩, by omega⟩

/-- Adding a constant to every element shifts the list minimum. -/
theorem min_map_add (l : List Int) (c : Int) (b : Int) (h : l.min? = some b) :
    (l.map (· + c)).min? = some (b + c) := by
  obtain ⟨hmem, hle⟩ := (List.min?_eq_some_iff (fun (a : Int) => le_refl a)
    (fun (a b : Int) => min_choice a b) (fun (a b c : Int) => le_min_iff)).mp h
  refine (List.min?_eq_some_iff (fun (a : Int) => le_refl a)
    (fun (a b : Int) => min_choice a b) (fun (a b c : Int) => le_min_iff)).mpr
    ⟨List.mem_map.mpr ⟨b, hmem, rfl⟩, ?_⟩
  intro y hy
  obtain ⟨x, hx, rfl⟩ := List.mem_map.mp hy
  have := hle x hx
  omega

/-- **C9** (amended).  At every harmonization-style change in
`generar_notas_mixtas` — a first event of a chord whose (lower-cased) style
differs from the previous one, with a recorded previous bass reference
`b` — the renderer computes the raw notes for the event, takes their
minimum `bajo`, and applies the uniform whole-octave offset
`ajustar_salto (some b) bajo - bajo` to every emitted note of the event; the
offset is recorded for the chord (so all its later events reuse it), the new
bass reference is the event's lowest emitted pitch, and that lowest pitch is
strictly within one octave of `b`.  The reference `b` is the previous
chord's *first-event* minimum, not necessarily the previous style's overall
lowest emitted pitch, so the claim as originally stated fails (see the
counterexample). -/
theorem C9_cambio_estilo (voicings : List (List Int)) (asigs : List Asig)
    (infos : List InfoAcorde) (grid : ℚ) (s : EstadoMixto) (pos : Nota)
    (s' : EstadoMixto) (ns : List Nota) (idx : Nat) (b : Int)
    (hok : pasoMixto voicings asigs infos grid s pos = .ok (s', ns))
    (hmap : mapaAsig asigs (redondear (pos.start / grid)) = some idx)
    (hpaso : buscarD s.contadores idx 0 = 0)
    (harm : s.armAnterior ≠ some (minusculas ((asigs.getD idx ("", [], "")).2.2)))
    (hprev : s.bajoAnterior = some b) :
    ∃ (notas : List Int) (bajo : Int),
      notas.min? = some bajo ∧
      ns = notas.map (fun q => Nota.mk (q + (ajustar_salto (some b) bajo - bajo))
            pos.start pos.stop pos.velocity) ∧
      s'.offsets = insertarAsoc s.offsets idx (ajustar_salto (some b) bajo - bajo) ∧
      s'.bajoAnterior = some (ajustar_salto (some b) bajo) ∧
      (ns.map (fun m => m.pitch)).min? = some (ajustar_salto (some b) bajo) ∧
      |ajustar_salto (some b) bajo - b| < 12 ∧
      12 ∣ (ajustar_salto (some b) bajo - bajo) := by
  simp only [pasoMixto, hmap, Bind.bind, Except.bind] at hok
  rw [hpaso, hprev] at hok
  cases hev : elemento voicings idx with
  | error e =>
    rw [hev] at hok
    simp at hok
  | ok vso =>
    rw [hev] at hok
    dsimp only at hok
    cases hnc : notasCrudas (minusculas ((asigs.getD idx ("", [], "")).2.2))
        (infos.getD idx ⟨0, [], false, false, ""⟩)
        (List.insertionSort (· ≤ ·) vso) 0 pos.pitch with
    | error e =>
      rw [hnc] at hok
      simp at hok
    | ok notas =>
      rw [hnc] at hok
      dsimp only at hok
      simp only [reduceIte] at hok
      cases hmin : notas.min? with
      | none =>
        rw [hmin] at hok
        simp at hok
      | some bajo =>
        rw [hmin] at hok
        dsimp only at hok
        rw [if_pos harm] at hok
        simp only [Except.ok.injEq, Prod.mk.injEq] at hok
        obtain ⟨hs', hns⟩ := hok
        obtain ⟨hlt, hdvd⟩ := ajustar_salto_spec b bajo
        refine ⟨notas, bajo, hmin, hns.symm, ?_, ?_, ?_, hlt, hdvd⟩
        · rw [← hs']
        · rw [← hs']
        · rw [← hns]
          have hmapmap : (notas.map (fun q => Nota.mk
              (q + (ajustar_salto (some b) bajo - bajo))
              pos.start pos.stop pos.velocity)).map (fun m => m.pitch) =
              notas.map (fun q => q + (ajustar_salto (some b) bajo - bajo)) := by
            rw [List.map_map]
            rfl
          rw [hmapmap, min_map_add notas _ bajo hmin]
          congr 1
          omega

/-! #### Concrete evaluations of the render pipeline for C9 -/

theorem infos_eval : (asigsPrueba.mapM (fun a => infoAcorde a.1)) = .ok infosPrueba := by
  decide

theorem paso1_eval :
    pasoMixto voicingsPrueba asigsPrueba infosPrueba 1 ⟨[], [], none, none⟩
      ⟨64, 0, 1, 100⟩ =
    .ok (⟨[(0, 1)], [(0, 0)], some 64, some ""⟩, [⟨64, 0, 1, 100⟩]) := by
  have hm : mapaAsig asigsPrueba (redondear ((0 : ℚ) / 1)) = some 0 := by
    rw [show redondear ((0 : ℚ) / 1) = 0 from by norm_num [redondear]]
    decide
  simp only [pasoMixto, Bind.bind, Except.bind, hm]
  decide

theorem paso2_eval :
    pasoMixto voicingsPrueba asigsPrueba infosPrueba 1
      ⟨[(0, 1)], [(0, 0)], some 64, some ""⟩ ⟨55, 1, 2, 100⟩ =
    .ok (⟨[(0, 2)], [(0, 0)], some 64, some ""⟩, [⟨55, 1, 2, 100⟩]) := by
  have hm : mapaAsig asigsPrueba (redondear ((1 : ℚ) / 1)) = some 0 := by
    rw [show redondear ((1 : ℚ) / 1) = 1 from by norm_num [redondear]]
    decide
  simp only [pasoMixto, Bind.bind, Except.bind, hm]
  decide

theorem salto_64_72_eval : ajustar_salto (some (64 : Int)) 72 = 72 := by
  have h1 : bajarSalto 64 72 = 72 := by
    rw [bajarSalto]
    norm_num
  have h2 : subirSalto 64 72 = 72 := by
    rw [subirSalto]
    norm_num
  have hdef : ajustar_salto (some (64 : Int)) 72 = subirSalto 64 (bajarSalto 64 72) := rfl
  rw [hdef, h1, h2]

theorem mapa7_eval :
    mapaAsig asigsPrueba (redondear ((7 : ℚ) / 1)) = some 1 := by
  rw [show redondear ((7 : ℚ) / 1) = 7 from by norm_num [redondear]]
  decide

theorem paso3_eval :
    pasoMixto voicingsPrueba asigsPrueba infosPrueba 1
      ⟨[(0, 2)], [(0, 0)], some 64, some ""⟩ ⟨64, 7, 8, 100⟩ =
    .ok (⟨[(0, 2), (1, 1)], [(0, 0), (1, 0)], some 72, some "octavas"⟩,
      [⟨72, 7, 8, 100⟩, ⟨84, 7, 8, 100⟩]) := by
  simp only [pasoMixto, Bind.bind, Except.bind, mapa7_eval]
  have helem : elemento voicingsPrueba 1 = .ok [63, 65, 69, 72] := by decide
  simp only [helem]
  have hnc : notasCrudas (minusculas ((asigsPrueba.getD 1 ("", [], "")).2.2))
      (infosPrueba.getD 1 ⟨0, [], false, false, ""⟩)
      (List.insertionSort (· ≤ ·) ([63, 65, 69, 72] : List Int))
      (buscarD ([(0, 2)] : List (Nat × Nat)) 1 0) ((Nota.mk 64 7 8 100) : Nota).pitch =
      .ok [72, 84] := by decide
  simp only [hnc]
  simp only [show buscarD ([(0, 2)] : List (Nat × Nat)) 1 0 = 0 from by decide, reduceIte]
  simp only [show ([72, 84] : List Int).min? = some 72 from by decide]
  simp only [salto_64_72_eval]
  decide

/-- The full render of the progression `"C7 | (8)F7"` over a reference whose
first chord's first event carries the highest baseline pitch (64), its
second event the lowest (55), and whose second chord's only event again
carries pitch 64. -/
theorem render_eval :
    generar_notas_mixtas [⟨64, 0, 1, 100⟩, ⟨55, 1, 2, 100⟩, ⟨64, 7, 8, 100⟩]
      voicingsPrueba asigsPrueba 1 =
    .ok [⟨64, 0, 1, 100⟩, ⟨55, 1, 2, 100⟩, ⟨72, 7, 8, 100⟩, ⟨84, 7, 8, 100⟩] := by
  simp only [generar_notas_mixtas, Bind.bind, Except.bind, infos_eval, mixtasDesde,
    paso1_eval, paso2_eval, paso3_eval]
  rfl

/-- Witness for C9 at the style change of the rendered example: the chord
`F7` (style `octavas`) starts at slot 7 with previous bass reference 64. -/
theorem C9_cambio_estilo_witness :
    ∃ (notas : List Int) (bajo : Int),
      notas.min? = some bajo ∧
      ([⟨72, 7, 8, 100⟩, ⟨84, 7, 8, 100⟩] : List Nota) =
        notas.map (fun q => Nota.mk (q + (ajustar_salto (some 64) bajo - bajo)) 7 8 100) ∧
      ([(0, 0), (1, 0)] : List (Nat × Int)) =
        insertarAsoc [(0, 0)] 1 (ajustar_salto (some 64) bajo - bajo) ∧
      (some 72 : Option Int) = some (ajustar_salto (some 64) bajo) ∧
      (([⟨72, 7, 8, 100⟩, ⟨84, 7, 8, 100⟩] : List Nota).map (fun m => m.pitch)).min? =
        some (ajustar_salto (some 64) bajo) ∧
      |ajustar_salto (some 64) bajo - 64| < 12 ∧
      12 ∣ (ajustar_salto (some 64) bajo - bajo) :=
  C9_cambio_estilo voicingsPrueba asigsPrueba infosPrueba 1
    ⟨[(0, 2)], [(0, 0)], some 64, some ""⟩ ⟨64, 7, 8, 100⟩
    ⟨[(0, 2), (1, 1)], [(0, 0), (1, 0)], some 72, some "octavas"⟩
    [⟨72, 7, 8, 100⟩, ⟨84, 7, 8, 100⟩] 1 64
    paso3_eval mapa7_eval (by decide) (by decide) rfl

/-- Counterexample to C9 as stated.  In the render of `"C7 | (8)F7"` above,
the style change at chord `F7` adjusts the new bass against the *first-event*
minimum of chord `C7` (pitch 64), not against `C7`'s overall lowest emitted
pitch (55): the new style's lowest emitted pitch is 72, so the leap from the
previous style's lowest emitted pitch (55) is 17 semitones — not strictly
under one octave as the claim asserts.  (Notes with `start < 7` are the
first style's, notes with `start ≥ 7` the second's, matching the two chords'
slot ranges.) -/
theorem C9_contraejemplo :
    generar_voicings_enlazados_tradicional ["C7", "F7"] = .ok voicingsPrueba
    ∧ procesar_progresion_en_grupos "C7 | (8)F7" none = .ok (asigsPrueba, 2)
    ∧ generar_notas_mixtas [⟨64, 0, 1, 100⟩, ⟨55, 1, 2, 100⟩, ⟨64, 7, 8, 100⟩]
        voicingsPrueba asigsPrueba 1 =
      .ok [⟨64, 0, 1, 100⟩, ⟨55, 1, 2, 100⟩, ⟨72, 7, 8, 100⟩, ⟨84, 7, 8, 100⟩]
    ∧ ((([⟨64, 0, 1, 100⟩, ⟨55, 1, 2, 100⟩, ⟨72, 7, 8, 100⟩, ⟨84, 7, 8, 100⟩] :
        List Nota).filter (fun m => m.start < 7)).map (fun m => m.pitch)).min? = some 55
    ∧ ((([⟨64, 0, 1, 100⟩, ⟨55, 1, 2, 100⟩, ⟨72, 7, 8, 100⟩, ⟨84, 7, 8, 100⟩] :
        List Nota).filter (fun m => 7 ≤ m.start)).map (fun m => m.pitch)).min? = some 72
    ∧ ¬ (|(72 : Int) - 55| < 12) := by
  refine ⟨?_, by decide, render_eval, by decide, by decide, by decide⟩
  simp [generar_voicings_enlazados_tradicional, generarVoicingsDesde, generar_voicing,
    parsear_nombre_acorde, dividirRaiz, SUFIJOS, NOTAS, INTERVALOS_TRADICIONALES,
    ajustar, ajustar_octava, subirAlMinimo, bajarAlMaximo, subirSobreBajo,
    RANGO_MIN, RANGO_MAX, referencia, List.lookup, Bind.bind, Except.bind,
    voicingsPrueba]

end Montuno
